import Mathlib

/-!
Shallow embedding of the `win-color` crate (color expression parsing,
gradient direction geometry and HSL lightness transforms) for checking its
specification.

Modelling conventions:
* `f32` values are modelled as exact rationals (`ℚ`); IEEE rounding is not
  modelled.  Machine-integer arithmetic (`u8`, `u32`) is modelled on `ℕ`
  with the explicit bounds the Rust checked parsers enforce.
* Rust `String`/`&str` values are modelled as Lean `String`s; the string
  operations used by the crate (`strip_prefix`, `strip_suffix`, `split`,
  `trim`, `rfind`, slicing) are re-implemented over `String.data`
  (`List Char`), which coincides with the byte-based Rust operations on the
  ASCII inputs the color mini-language uses.
* The transcendental helpers (`sin`/`cos` in `parse_coordinates`,
  `to_degrees`) and the two regular expressions (`COLOR_REGEX`,
  `DARKEN_LIGHTEN_REGEX`) and the named-color table live in crate files that
  are not part of the sources under verification; they are taken as explicit
  parameters (`RealFuns`, `ParseCtx`), so every theorem quantifying over
  them holds for the real implementations as well.
* A Rust panic (`unwrap` on `None`) is modelled by the `RunResult.panicked`
  outcome.
-/

namespace WinColor

/-- RGBA color, models `D2D1_COLOR_F` (four `f32` channels). The `windows`
crate derives `Default` as the zeroed struct, so the default color is
`⟨0, 0, 0, 0⟩`. -/
structure D2D1_COLOR_F where
  r : ℚ
  g : ℚ
  b : ℚ
  a : ℚ
deriving DecidableEq, Repr

/-- Models `D2D1_GRADIENT_STOP`: a position along the gradient plus a color. -/
structure D2D1_GRADIENT_STOP where
  position : ℚ
  color : D2D1_COLOR_F
deriving DecidableEq, Repr

/-- Models `GradientCoordinates` from `src/gradient.rs`: normalized start and
end points of the gradient line. -/
structure GradientCoordinates where
  start : ℚ × ℚ
  endp : ℚ × ℚ
deriving DecidableEq, Repr

/-- Models `WinColorError` from `src/error.rs`, with the variants the code in
`src/lib.rs` actually constructs (the revisions in the repository disagree on
the exact darken/lighten variant names; we use the names used at the
construction sites). -/
inductive WinColorError where
  | InvalidGradientCoordinates (s : String)
  | AccentColorNotFound
  | InvalidHex (s : String)
  | InvalidRgb (s : String)
  | InvalidDarken (s : String)
  | InvalidLighten (s : String)
  | InvalidUnknown
deriving DecidableEq, Repr

/-- Error kinds used by the `src/parser/mod.rs` revision of the parser. -/
inductive ErrorKind where
  | InvalidAccent
  | InvalidRgb
  | InvalidDarken
  | InvalidLighten
  | InvalidHex
  | InvalidData
  | InvalidUnknown
deriving DecidableEq, Repr

/-- Models `Error` (kind plus offending-substring message) used by
`src/parser/mod.rs`. -/
structure Error where
  kind : ErrorKind
  message : String
deriving DecidableEq, Repr

/-- Rust `Result<α, ε>` as a value. -/
inductive Result (α ε : Type) where
  | ok (a : α)
  | err (e : ε)
deriving DecidableEq, Repr

/-- Models `Result::ok()` (conversion to `Option`, discarding the error). -/
def Result.toOption {α ε : Type} : Result α ε → Option α
  | .ok a => some a
  | .err _ => none

/-! ## String helpers (re-implemented over `String.data`) -/

/-- Character count of a string (equals Rust byte length on ASCII input). -/
def strLen (s : String) : ℕ := s.data.length

/-- Models Rust `str::starts_with`. -/
def strStartsWith (s p : String) : Bool := p.data.isPrefixOf s.data

/-- Models Rust `str::strip_suffix` for a string pattern. -/
def stripSuffixStr (s suf : String) : Option String :=
  if suf.data.isSuffixOf s.data then some ⟨s.data.take (strLen s - strLen suf)⟩
  else none

/-- Models Rust slicing `s[i..j]` (indices in characters; the crate only
slices ASCII strings, where characters and bytes coincide). -/
def sliceStr (s : String) (i j : ℕ) : String := ⟨(s.data.drop i).take (j - i)⟩

/-- Models Rust `str::split(sep)` on the underlying character list; splitting
the empty string yields `[""]` exactly as in Rust. -/
def splitChar (sep : Char) : List Char → List (List Char)
  | [] => [[]]
  | c :: rest =>
    let r := splitChar sep rest
    if c = sep then [] :: r
    else
      match r with
      | h :: t => (c :: h) :: t
      | [] => [[c]]

/-- Rust `str::split(sep)` producing strings. -/
def splitStr (s : String) (sep : Char) : List String :=
  (splitChar sep s.data).map (fun l => ⟨l⟩)

/-- Models Rust `str::trim`. -/
def trimStr (s : String) : String :=
  ⟨((s.data.dropWhile Char.isWhitespace).reverse.dropWhile Char.isWhitespace).reverse⟩

/-- Models Rust `str::trim_start`. -/
def trimStartStr (s : String) : String := ⟨s.data.dropWhile Char.isWhitespace⟩

/-- Models Rust `str::is_empty`. -/
def strIsEmpty (s : String) : Bool := s.data.isEmpty

/-- Models Rust `str::rfind(pat)`: index of the last occurrence of `pat`. -/
def rfindSub (s pat : String) : Option ℕ :=
  ((List.range (strLen s + 1)).filterMap
    (fun i => if pat.data.isPrefixOf (s.data.drop i) then some i else none)).getLast?

/-- Models `strip_string` from `src/utils.rs`: remove the first matching
prefix from `prefixes` (if any), then remove one trailing `suffix` character
(if present). -/
def stripString (input : String) (prefixes : List String) (suffix : Char) : String :=
  let result :=
    match prefixes.find? (fun p => strStartsWith input p) with
    | some p => ⟨input.data.drop (strLen p)⟩
    | none => input
  match stripSuffixStr result ⟨[suffix]⟩ with
  | some stripped => stripped
  | none => result

/-! ## Numeric token parsing -/

/-- Hexadecimal digit value, as recognised by Rust `from_str_radix(_, 16)`. -/
def hexDigit? (c : Char) : Option ℕ :=
  if 48 ≤ c.toNat ∧ c.toNat ≤ 57 then some (c.toNat - 48)
  else if 97 ≤ c.toNat ∧ c.toNat ≤ 102 then some (c.toNat - 87)
  else if 65 ≤ c.toNat ∧ c.toNat ≤ 70 then some (c.toNat - 55)
  else none

/-- Models `u8::from_str_radix(s, 16)` : optional leading `+`, then a
non-empty run of hex digits, rejecting values above `u8::MAX`. -/
def fromStrRadix16U8 (s : String) : Option ℕ :=
  let l := if s.data.head? = some '+' then s.data.tail else s.data
  if l.isEmpty then none
  else
    l.foldl
      (fun acc c =>
        match acc with
        | none => none
        | some a =>
          match hexDigit? c with
          | none => none
          | some d => if a * 16 + d ≤ 255 then some (a * 16 + d) else none)
      (some 0)

/-- Numeric value of a run of decimal digits. -/
def natOfDigits (l : List Char) : ℕ := l.foldl (fun a c => a * 10 + (c.toNat - 48)) 0

/-- Exponent part of a float literal (`e`/`E`, optional sign, digits). -/
def parseExpPart (mant : ℚ) (l : List Char) : Option ℚ :=
  match l with
  | [] => some mant
  | c :: rest =>
    if c = 'e' ∨ c = 'E' then
      let (neg, r) :=
        match rest with
        | '-' :: r2 => (true, r2)
        | '+' :: r2 => (false, r2)
        | r2 => (false, r2)
      let (ds, rest2) := r.span Char.isDigit
      if ds.isEmpty ∨ ¬rest2.isEmpty then none
      else
        let e : ℤ := (natOfDigits ds : ℤ)
        some (mant * (10 : ℚ) ^ (if neg then -e else e))
    else none

/-- Models Rust `f32::from_str` on decimal literals, with the value taken
exactly in `ℚ` (IEEE rounding and the `inf`/`NaN` spellings are outside the
model). -/
def parseF32 (s : String) : Option ℚ :=
  let (neg, l) :=
    match s.data with
    | '-' :: r => (true, r)
    | '+' :: r => (false, r)
    | r => (false, r)
  let (ip, rest) := l.span Char.isDigit
  let mantissa :=
    match rest with
    | '.' :: r2 =>
      let (fp, rest3) := r2.span Char.isDigit
      if ip.isEmpty ∧ fp.isEmpty then none
      else some ((natOfDigits ip : ℚ) + (natOfDigits fp : ℚ) / (10 : ℚ) ^ fp.length, rest3)
    | _ => if ip.isEmpty then none else some ((natOfDigits ip : ℚ), rest)
  match mantissa with
  | none => none
  | some (m, rest2) =>
    match parseExpPart m rest2 with
    | none => none
    | some v => some (if neg then -v else v)

/-- Models Rust `u32::from_str` (decimal, optional leading `+`). -/
def parseU32 (s : String) : Option ℕ :=
  let l := if s.data.head? = some '+' then s.data.tail else s.data
  if l.isEmpty ∨ ¬(l.all Char.isDigit) then none
  else
    let v := natOfDigits l
    if v < 4294967296 then some v else none

/-- Models `f32::clamp`. -/
def clampQ (v lo hi : ℚ) : ℚ := max lo (min v hi)

/-- Models Rust float truncation (`trunc`), used by the float `%` operator. -/
def rtruncQ (q : ℚ) : ℚ := if q < 0 then -((Rat.floor (-q) : ℤ) : ℚ) else ((Rat.floor q : ℤ) : ℚ)

/-- Models the Rust `%` operator on floats: `a % b = a - b * trunc (a / b)`. -/
def rfmod (a b : ℚ) : ℚ := a - b * rtruncQ (a / b)

/-- Models `f32::signum` on finite values (`1` for non-negative, `-1` for
negative; the crate never feeds it a NaN). -/
def rsignum (q : ℚ) : ℚ := if q < 0 then -1 else 1

/-- Value of `f32::MAX`, exactly. -/
def maxFloat : ℚ := 340282346638528859811704183484516925440

/-! ## HSL transform (`src/utils.rs`) -/

/-- Models the private `Hsla` struct of `src/utils.rs`. -/
structure Hsla where
  h : ℚ
  s : ℚ
  l : ℚ
  a : ℚ
deriving DecidableEq, Repr

/-- Models `d2d1_to_hsla` from `src/utils.rs` (standard min/max/delta RGB→HSL
conversion; hue in degrees, saturation and lightness scaled to `[0,100]`). -/
def d2d1_to_hsla (color : D2D1_COLOR_F) : Hsla :=
  let r := color.r
  let g := color.g
  let b := color.b
  let mx := max (max r g) b
  let mn := min (min r g) b
  let delta := mx - mn
  let l := (mx + mn) / 2
  let hs : ℚ × ℚ :=
    if delta ≠ 0 then
      let h0 :=
        if mx = r then (g - b) / delta
        else if mx = g then (b - r) / delta + 2
        else (r - g) / delta + 4
      let s0 := if l = 0 ∨ l = 1 then 0 else delta / (1 - |2 * l - 1|)
      let h60 := h0 * 60
      (if h60 < 0 then h60 + 360 else h60, s0)
    else (0, 0)
  { h := hs.1, s := hs.2 * 100, l := l * 100, a := color.a }

/-- Models `hsla_to_d2d1` from `src/utils.rs` (standard chroma/hue-sector
HSL→RGB conversion with a final per-channel clamp to `[0,1]`). -/
def hsla_to_d2d1 (hsla : Hsla) : D2D1_COLOR_F :=
  let s := hsla.s / 100
  let l := hsla.l / 100
  let h := hsla.h
  let c := (1 - |2 * l - 1|) * s
  let x := c * (1 - |rfmod (h / 60) 2 - 1|)
  let m := l - c / 2
  let rgb : ℚ × ℚ × ℚ :=
    if h < 60 then (c, x, 0)
    else if h < 120 then (x, c, 0)
    else if h < 180 then (0, c, x)
    else if h < 240 then (0, x, c)
    else if h < 300 then (x, 0, c)
    else (c, 0, x)
  { r := clampQ (rgb.1 + m) 0 1
    g := clampQ (rgb.2.1 + m) 0 1
    b := clampQ (rgb.2.2 + m) 0 1
    a := hsla.a }

/-- Models `darken` from `src/utils.rs`: proportional lightness decrease in
HSL space. -/
def darken (color : D2D1_COLOR_F) (percentage : ℚ) : D2D1_COLOR_F :=
  let hsla := d2d1_to_hsla color
  hsla_to_d2d1 { hsla with l := hsla.l - hsla.l * percentage / 100 }

/-- Models `lighten` from `src/utils.rs`: proportional lightness increase in
HSL space. -/
def lighten (color : D2D1_COLOR_F) (percentage : ℚ) : D2D1_COLOR_F :=
  let hsla := d2d1_to_hsla color
  hsla_to_d2d1 { hsla with l := hsla.l + hsla.l * percentage / 100 }

/-! ## Gradient direction geometry (`src/gradient.rs`) -/

/-- External real-valued helpers the geometry uses.  `tanNegRad angle`
stands for `rad.sin() / rad.cos()` at `rad = -angle * π / 180`; `radToDeg`
stands for `f32::to_degrees` (multiplication by `180 / π`).  Both are
transcendental, so they are parameters of the model; the theorems below hold
for every choice, in particular for the real functions. -/
structure RealFuns where
  tanNegRad : ℚ → ℚ
  radToDeg : ℚ → ℚ

/-- Models the private `Line` struct (`y = m * x + b`). -/
structure Line where
  m : ℚ
  b : ℚ
deriving DecidableEq, Repr

/-- Models `Line::plug_in_x`. -/
def Line.plug_in_x (line : Line) (x : ℚ) : ℚ := line.m * x + line.b

/-- Models `calculate_point` from `src/gradient.rs`: evaluate the line at
`x`, clamping the point back onto the unit square's horizontal edges when the
value leaves `[0,1]`. -/
def calculate_point (line : Line) (x : ℚ) : ℚ × ℚ :=
  let y := line.plug_in_x x
  if 0 ≤ y ∧ y ≤ 1 then (x, y)
  else if 1 ≤ y then ((1 - line.b) / line.m, 1)
  else (-line.b / line.m, 0)

/-- Models `parse_angle` from `src/gradient.rs`: strip one of the unit
suffixes (`deg`, `grad`, `rad`, `turn`), parse the numeric part and convert
to degrees; fall back to parsing the whole string as a bare number. -/
def parse_angle (R : RealFuns) (s : String) : Option ℚ :=
  let deg := (stripSuffixStr s "deg").bind parseF32
  let grad := ((stripSuffixStr s "grad").bind parseF32).map (fun t => t * 360 / 400)
  let rad := ((stripSuffixStr s "rad").bind parseF32).map R.radToDeg
  let turn := ((stripSuffixStr s "turn").bind parseF32).map (fun t => t * 360)
  ((((deg.orElse (fun _ => grad)).orElse (fun _ => rad)).orElse
      (fun _ => turn)).orElse (fun _ => parseF32 s))

/-- Slope selected by `parse_coordinates` for an angle: the vertical-line
degeneracy (`|θ| % 360 ∈ {90, 270}`) saturates to `±f32::MAX`, every other
angle takes `tan` of the negated angle in radians. -/
def angleSlope (R : RealFuns) (angle : ℚ) : ℚ :=
  if rfmod |angle| 360 = 90 ∨ rfmod |angle| 360 = 270 then rsignum angle * maxFloat
  else R.tanNegRad angle

/-- Angle branch of `parse_coordinates` from `src/gradient.rs`: build the
gradient-progression line through `(0.5, 0.5)` and intersect it with the unit
square at the two sample abscissae chosen by the angle's sector. -/
def angleToCoords (R : RealFuns) (angle : ℚ) : GradientCoordinates :=
  let m := angleSlope R angle
  let b := -m * (1 / 2) + 1 / 2
  let line : Line := ⟨m, b⟩
  let t := rfmod |angle| 360
  let xse : ℚ × ℚ :=
    if 0 ≤ t ∧ t < 90 then (0, 1)
    else if 90 ≤ t ∧ t < 270 then (1, 0)
    else if 270 ≤ t ∧ t < 360 then (0, 1)
    else (0, 1)
  { start := calculate_point line xse.1, endp := calculate_point line xse.2 }

/-- Models `parse_coordinates` from `src/gradient.rs` (the body of
`GradientCoordinates::try_from`): try the string as an angle, otherwise match
one of the eight keyword directions, otherwise fail. -/
def parse_coordinates (R : RealFuns) (coordinates : String) :
    Result GradientCoordinates WinColorError :=
  match parse_angle R coordinates with
  | some angle => .ok (angleToCoords R angle)
  | none =>
    if coordinates = "to right" then .ok ⟨(0, 1 / 2), (1, 1 / 2)⟩
    else if coordinates = "to left" then .ok ⟨(1, 1 / 2), (0, 1 / 2)⟩
    else if coordinates = "to top" then .ok ⟨(1 / 2, 1), (1 / 2, 0)⟩
    else if coordinates = "to bottom" then .ok ⟨(1 / 2, 0), (1 / 2, 1)⟩
    else if coordinates = "to top right" then .ok ⟨(0, 1), (1, 0)⟩
    else if coordinates = "to top left" then .ok ⟨(1, 1), (0, 0)⟩
    else if coordinates = "to bottom right" then .ok ⟨(0, 0), (1, 1)⟩
    else if coordinates = "to bottom left" then .ok ⟨(1, 0), (0, 1)⟩
    else .err (.InvalidGradientCoordinates coordinates)

/-- Models `is_valid_angle` from `src/gradient.rs`: a numeric value followed
by one of the four unit suffixes. -/
def is_valid_angle (direction : String) : Bool :=
  (["deg", "grad", "rad", "turn"] : List String).any
    (fun su => ((stripSuffixStr direction su).bind parseF32).isSome)

/-- Models `is_valid_direction` from `src/gradient.rs`: one of the eight
keyword phrases or a valid angle. -/
def is_valid_direction (direction : String) : Bool :=
  ((["to right", "to left", "to top", "to bottom", "to top right", "to top left",
      "to bottom right", "to bottom left"] : List String).contains direction)
    || is_valid_angle direction

/-! ## Color token parsers -/

/-- External context of the token parsers.

* `namedColors` models the `NAMED_COLORS` table (its source file
  `named_colors.rs` / `constant.rs` is not among the sources; the table is a
  static name→RGBA map, so it is a parameter here).
* `accentColorization` models the outcome of the external
  `DwmGetColorizationColor` call: `none` for failure, `some pcr` for the
  32-bit colorization value.
* `dlCaptures` models a successful `DARKEN_LIGHTEN_REGEX` capture (regex
  source file likewise absent): capture groups 1 (`"darken"`/`"lighten"`),
  2 (the inner color string) and 3 (the percentage string); a match always
  has `caps.len() == 4`, so the dead `caps.len() != 4` branch of the source
  is not represented. -/
structure ParseCtx where
  namedColors : String → Option D2D1_COLOR_F
  accentColorization : Option ℕ
  dlCaptures : String → Option (String × String × String)

/-- Models `parse_percent_or_float` from `src/parser/mod.rs`: `N%` becomes
`N/100` (flag `true`), otherwise a bare float is used as-is (flag `false`). -/
def parse_percent_or_float (s : String) : Option (ℚ × Bool) :=
  match (stripSuffixStr s "%").bind parseF32 with
  | some t => some (t / 100, true)
  | none => (parseF32 s).map (fun t => (t, false))

/-- Models `parse_percent_or_255` from `src/parser/mod.rs`: `N%` becomes
`N/100` (flag `true`), otherwise a bare number `N` becomes `N/255`
(flag `false`). -/
def parse_percent_or_255 (s : String) : Option (ℚ × Bool) :=
  match (stripSuffixStr s "%").bind parseF32 with
  | some t => some (t / 100, true)
  | none => (parseF32 s).map (fun t => (t / 255, false))

/-- Models the inner `parse_single_digit` of `parse_hex`
(`src/parser/mod.rs`): parse one hex digit `n` and duplicate its nibble,
`(n << 4) | n`, before scaling by 255. -/
def parse_single_digit (digit : String) : Result ℚ Error :=
  match fromStrRadix16U8 digit with
  | some n => .ok ((((n <<< 4) ||| n : ℕ) : ℚ) / 255)
  | none => .err ⟨.InvalidHex, digit⟩

/-- One byte of a 6- or 8-digit hex color in `parse_hex`; a parse failure
reports the whole hex string. -/
def parseHexByte (whole part : String) : Result ℚ Error :=
  match fromStrRadix16U8 part with
  | some n => .ok ((n : ℚ) / 255)
  | none => .err ⟨.InvalidHex, whole⟩

/-- Models `parse_hex` from `src/parser/mod.rs` (input already stripped of
the leading `#`): 3- and 4-digit forms duplicate each nibble, 6- and 8-digit
forms parse byte pairs; alpha defaults to 1 when absent; anything else is
`InvalidHex`. -/
def parse_hex (s : String) : Result D2D1_COLOR_F Error :=
  if ¬(s.data.all fun c => c.toNat < 128) then .err ⟨.InvalidHex, s⟩
  else
    let n := strLen s
    if n = 3 ∨ n = 4 then
      match parse_single_digit (sliceStr s 0 1) with
      | .err e => .err e
      | .ok r =>
        match parse_single_digit (sliceStr s 1 2) with
        | .err e => .err e
        | .ok g =>
          match parse_single_digit (sliceStr s 2 3) with
          | .err e => .err e
          | .ok b =>
            match (if n = 4 then parse_single_digit (sliceStr s 3 4) else .ok 1) with
            | .err e => .err e
            | .ok a => .ok ⟨r, g, b, a⟩
    else if n = 6 ∨ n = 8 then
      match parseHexByte s (sliceStr s 0 2) with
      | .err e => .err e
      | .ok r =>
        match parseHexByte s (sliceStr s 2 4) with
        | .err e => .err e
        | .ok g =>
          match parseHexByte s (sliceStr s 4 6) with
          | .err e => .err e
          | .ok b =>
            match (if n = 8 then parseHexByte s (sliceStr s 6 8) else .ok 1) with
            | .err e => .err e
            | .ok a => .ok ⟨r, g, b, a⟩
    else .err ⟨.InvalidHex, s⟩

/-- The desaturated accent variant computed by both token parsers for the
inactive state: each channel is `avg / 1.5 + channel / 10`, alpha 1. -/
def accentColor (pcr : ℕ) (isActive : Option Bool) : D2D1_COLOR_F :=
  let r : ℚ := (((pcr &&& 0xFF0000) >>> 16 : ℕ) : ℚ) / 255
  let g : ℚ := (((pcr &&& 0x00FF00) >>> 8 : ℕ) : ℚ) / 255
  let b : ℚ := (((pcr &&& 0x0000FF) : ℕ) : ℚ) / 255
  let avg := (r + g + b) / 3
  match isActive with
  | some true => ⟨r, g, b, 1⟩
  | _ => ⟨avg / (3 / 2) + r / 10, avg / (3 / 2) + g / 10, avg / (3 / 2) + b / 10, 1⟩

/-- Models `parse` from `src/parser/mod.rs`: the single-token color parser
(accent / named / hex / rgb / rgba / darken / lighten, with opaque-black
default for anything else).  The `darken`/`lighten` branch re-enters the
parser on the captured inner color; that recursion is bounded here by an
explicit `fuel` argument (the real code is bounded by the nesting depth of
the input, which the missing regex determines). -/
def parse (ctx : ParseCtx) (isActive : Option Bool) : ℕ → String → Result D2D1_COLOR_F Error
  | 0, s => .err ⟨.InvalidData, s⟩
  | fuel + 1, s =>
    if s = "accent" then
      match ctx.accentColorization with
      | none => .err ⟨.InvalidAccent, "accent color not found"⟩
      | some pcr => .ok (accentColor pcr isActive)
    else
      match ctx.namedColors s with
      | some color => .ok color
      | none =>
        if strStartsWith s "#" then parse_hex ⟨s.data.tail⟩
        else if strStartsWith s "rgb(" ∨ strStartsWith s "rgba(" then
          let rgba := stripString s ["rgb(", "rgba("] ')'
          let params := (splitStr rgba ',').map trimStr
          if params.length ≠ 3 ∧ params.length ≠ 4 then .err ⟨.InvalidRgb, s⟩
          else
            let r := parse_percent_or_255 (params.getD 0 "")
            let g := parse_percent_or_255 (params.getD 1 "")
            let b := parse_percent_or_255 (params.getD 2 "")
            let a :=
              if params.length = 4 then parse_percent_or_float (params.getD 3 "")
              else some ((1 : ℚ), true)
            match r, g, b, a with
            | some (rv, rFmt), some (gv, gFmt), some (bv, bFmt), some (av, _) =>
              if rFmt = gFmt ∧ gFmt = bFmt then
                .ok ⟨clampQ rv 0 1, clampQ gv 0 1, clampQ bv 0 1, clampQ av 0 1⟩
              else .err ⟨.InvalidRgb, s⟩
            | _, _, _, _ => .err ⟨.InvalidRgb, s⟩
        else if strStartsWith s "darken(" ∨ strStartsWith s "lighten(" then
          match ctx.dlCaptures s with
          | some (dl, colorStr, pct) =>
            let percentage := (parseF32 pct).getD 10
            match parse ctx isActive fuel colorStr with
            | .err e => .err e
            | .ok color =>
              .ok (if dl = "darken" then darken color percentage
                   else if dl = "lighten" then lighten color percentage
                   else color)
          | none =>
            if strStartsWith s "darken(" then .err ⟨.InvalidDarken, s⟩
            else .err ⟨.InvalidLighten, s⟩
        else .ok ⟨0, 0, 0, 0⟩

/-- Models `String::to_d2d1_color` from `src/lib.rs` (the `ToColor` impl):
the token parser of the `lib.rs` revision.  It checks, in order: the literal
`accent`, `#`-hex (by total length, nibble-duplicating the 3/4-digit forms
and defaulting unparsable bytes to 0), `rgb(`/`rgba(` (bare `u32` components
only, defaulting unparsable components to 0), `darken(`/`lighten(` (regex
capture plus recursion, bounded by `fuel` as in `parse`), then the named
color table, and finally `D2D1_COLOR_F::default()` (transparent black). -/
def to_d2d1_color (ctx : ParseCtx) (isActive : Option Bool) :
    ℕ → String → Result D2D1_COLOR_F WinColorError
  | 0, _ => .err .InvalidUnknown
  | fuel + 1, s =>
    if s = "accent" then
      match ctx.accentColorization with
      | none => .err .AccentColorNotFound
      | some pcr => .ok (accentColor pcr isActive)
    else if strStartsWith s "#" then
      if strLen s ≠ 7 ∧ strLen s ≠ 9 ∧ strLen s ≠ 4 ∧ strLen s ≠ 5 then .err (.InvalidHex s)
      else
        let hex :=
          if strLen s = 4 ∨ strLen s = 5 then
            "#" ++ (sliceStr s 1 2 ++ sliceStr s 1 2) ++ (sliceStr s 2 3 ++ sliceStr s 2 3)
              ++ (sliceStr s 3 4 ++ sliceStr s 3 4) ++ (sliceStr s 4 5 ++ sliceStr s 4 5)
          else s
        let r : ℚ := (((fromStrRadix16U8 (sliceStr hex 1 3)).getD 0 : ℕ) : ℚ) / 255
        let g : ℚ := (((fromStrRadix16U8 (sliceStr hex 3 5)).getD 0 : ℕ) : ℚ) / 255
        let b : ℚ := (((fromStrRadix16U8 (sliceStr hex 5 7)).getD 0 : ℕ) : ℚ) / 255
        let a : ℚ :=
          if strLen hex = 9 then (((fromStrRadix16U8 (sliceStr hex 7 9)).getD 0 : ℕ) : ℚ) / 255
          else 1
        .ok ⟨r, g, b, a⟩
    else if strStartsWith s "rgb(" ∨ strStartsWith s "rgba(" then
      let rgba := stripString s ["rgb(", "rgba("] ')'
      let components := (splitStr rgba ',').map trimStr
      if components.length ≠ 3 ∧ components.length ≠ 4 then .err (.InvalidRgb s)
      else
        let r : ℚ := (((parseU32 (components.getD 0 "")).getD 0 : ℕ) : ℚ) / 255
        let g : ℚ := (((parseU32 (components.getD 1 "")).getD 0 : ℕ) : ℚ) / 255
        let b : ℚ := (((parseU32 (components.getD 2 "")).getD 0 : ℕ) : ℚ) / 255
        let a : ℚ := clampQ (((components.get? 3).bind parseF32).getD 1) 0 1
        .ok ⟨r, g, b, a⟩
    else if strStartsWith s "darken(" ∨ strStartsWith s "lighten(" then
      match ctx.dlCaptures s with
      | some (dl, colorStr, pct) =>
        let percentage := (parseF32 pct).getD 10
        match to_d2d1_color ctx isActive fuel colorStr with
        | .err e => .err e
        | .ok color =>
          .ok (if dl = "darken" then darken color percentage
               else if dl = "lighten" then lighten color percentage
               else color)
      | none =>
        if strStartsWith s "darken(" then .err (.InvalidDarken s)
        else .err (.InvalidLighten s)
    else
      match ctx.namedColors s with
      | some color => .ok color
      | none => .ok ⟨0, 0, 0, 0⟩

/-! ## The `Color` model and the expression-level parser (`src/lib.rs`) -/

/-- Models `Solid` from the `lib.rs` revision: a color plus an opacity. -/
structure Solid where
  color : D2D1_COLOR_F
  opacity : ℚ
deriving DecidableEq, Repr

/-- Models `Gradient` from the `lib.rs` revision: stops, direction and
opacity. -/
structure Gradient where
  gradient_stops : List D2D1_GRADIENT_STOP
  direction : GradientCoordinates
  opacity : ℚ
deriving DecidableEq, Repr

/-- Models the `Color` enum: a solid color or a gradient. -/
inductive Color where
  | Solid (s : Solid)
  | Gradient (g : Gradient)
deriving DecidableEq, Repr

/-- Models `GradientDirection`: a direction string or explicit coordinates. -/
inductive GradientDirection where
  | Direction (s : String)
  | Coordinates (c : GradientCoordinates)
deriving DecidableEq, Repr

/-- Models `GradientMapping`: a color list plus a direction. -/
structure GradientMapping where
  colors : List String
  direction : GradientDirection
deriving DecidableEq, Repr

/-- Outcome of running a fallible Rust function that may also panic. -/
inductive RunResult (α : Type) where
  | ok (a : α)
  | err (e : WinColorError)
  | panicked
deriving DecidableEq, Repr

/-- The uniform gradient stops built by `try_from_string`/`parse_color` from
the successfully parsed colors: `step = 1 / (num_colors - 1)` and stop `i`
sits at `i * step`.  (`num_colors - 1` is `usize` subtraction in the source;
for the `num_colors = 0` case — unreachable in the settled claims — the Rust
release build wraps around where this model's `ℚ` division by zero yields
0.) -/
def mkGradientStops (colors : List D2D1_COLOR_F) : List D2D1_GRADIENT_STOP :=
  let numColors := colors.length
  let step : ℚ := 1 / ((numColors - 1 : ℕ) : ℚ)
  colors.enum.map (fun ic => ⟨(ic.1 : ℚ) * step, ic.2⟩)

/-- Models `try_from_string` from `src/lib.rs` (and the line-for-line
identical `parse_color` from `src/parser/mod.rs`) from the point where the
`COLOR_REGEX` scan has produced `colorMatches` on the (wrapper-stripped)
expression `color`; `colorMatches` is a parameter because the regex's source
file is not among the sources.  Exactly one match parses a Solid; otherwise
the remainder after the last match is scanned for a direction token
(defaulting to the string `"to_right"`), failed color tokens are silently
dropped, and a Gradient is assembled.  The `unwrap()` calls on an empty
match list (and on a failed `rfind`) are modelled as `panicked`. -/
def try_from_string_core (ctx : ParseCtx) (R : RealFuns) (fuel : ℕ) (isActive : Option Bool)
    (color : String) (colorMatches : List String) : RunResult Color :=
  if colorMatches.length = 1 then
    match to_d2d1_color ctx isActive fuel (colorMatches.getD 0 "") with
    | .err e => .err e
    | .ok c => .ok (.Solid ⟨c, 0⟩)
  else
    match colorMatches.getLast? with
    | none => .panicked
    | some lastMatch =>
      match rfindSub color lastMatch with
      | none => .panicked
      | some idx =>
        let remainingInput := trimStartStr ⟨color.data.drop (idx + strLen lastMatch)⟩
        let remainingInputArr := (splitStr remainingInput ',').filterMap
          (fun piece =>
            let trimmed := trimStr piece
            if strIsEmpty trimmed then none else some trimmed)
        let direction :=
          (remainingInputArr.find? (fun input => is_valid_direction input)).getD "to_right"
        let colors := colorMatches.filterMap
          (fun c => (to_d2d1_color ctx isActive fuel c).toOption)
        let gradientStops := mkGradientStops colors
        match parse_coordinates R direction with
        | .err e => .err e
        | .ok dir => .ok (.Gradient ⟨gradientStops, dir, 0⟩)

/-- Models `try_from_mapping` from `src/lib.rs` (and the structurally
identical `parse_color_mapping` from `src/parser/mod.rs`): zero colors give
the default Solid, one color parses as Solid, two or more build gradient
stops with `step = 1/(N-1)`, silently dropping colors that fail to parse
(keeping their original indices for the positions). -/
def try_from_mapping (ctx : ParseCtx) (R : RealFuns) (fuel : ℕ) (isActive : Option Bool)
    (mapping : GradientMapping) : Result Color WinColorError :=
  match mapping.colors.length with
  | 0 => .ok (.Solid ⟨⟨0, 0, 0, 0⟩, 0⟩)
  | 1 =>
    match to_d2d1_color ctx isActive fuel (mapping.colors.getD 0 "") with
    | .err e => .err e
    | .ok c => .ok (.Solid ⟨c, 0⟩)
  | _ + 2 =>
    let numColors := mapping.colors.length
    let step : ℚ := 1 / ((numColors - 1 : ℕ) : ℚ)
    let gradientStops := mapping.colors.enum.filterMap
      (fun ih => (to_d2d1_color ctx isActive fuel ih.2).toOption.map
        (fun c => (⟨(ih.1 : ℚ) * step, c⟩ : D2D1_GRADIENT_STOP)))
    let dirResult :=
      match mapping.direction with
      | .Direction d => parse_coordinates R d
      | .Coordinates c => .ok c
    match dirResult with
    | .err e => .err e
    | .ok dir => .ok (.Gradient ⟨gradientStops, dir, 0⟩)

/-- Models `Color::set_opacity` from `src/lib.rs`. -/
def set_opacity (c : Color) (opacity : ℚ) : Color :=
  match c with
  | .Gradient gradient => .Gradient { gradient with opacity := opacity }
  | .Solid solid => .Solid { solid with opacity := opacity }

/-- Models `Color::get_opacity` from `src/lib.rs`. -/
def get_opacity (c : Color) : ℚ :=
  match c with
  | .Gradient gradient => gradient.opacity
  | .Solid solid => solid.opacity

/-! ## Concrete model instances used by witnesses and counterexamples -/

/-- Modelled from the spec: the Named Color Table (`named_colors.rs` /
`constant.rs` are not among the sources) is a "static mapping from lowercase
color-name strings to RGBA values"; this instance carries a representative
sample of the standard CSS entries. -/
def namedColorsModel : String → Option D2D1_COLOR_F := fun s =>
  if s = "black" then some ⟨0, 0, 0, 1⟩
  else if s = "white" then some ⟨1, 1, 1, 1⟩
  else if s = "red" then some ⟨1, 0, 0, 1⟩
  else if s = "lime" then some ⟨0, 1, 0, 1⟩
  else if s = "blue" then some ⟨0, 0, 1, 1⟩
  else none

/-- A concrete parsing context: the model named-color table, a failing
accent query and a darken/lighten regex that never matches (none of the
concrete inputs below use those branches). -/
def ctxModel : ParseCtx := ⟨namedColorsModel, none, fun _ => none⟩

/-- A concrete instance of the transcendental helpers (their values are
irrelevant to every concrete input used below). -/
def realFunsModel : RealFuns := ⟨fun _ => 0, fun _ => 0⟩

/-- Duplicate every character of a string (`"fa0"` becomes `"ffaa00"`),
the textual form of the nibble-duplication the 3/4-digit hex branch
performs. -/
def dupNibbles (s : String) : String := ⟨s.data.flatMap (fun c => [c, c])⟩

/-! ## Helper lemmas -/

theorem clampQ_of_mem {v : ℚ} (h0 : 0 ≤ v) (h1 : v ≤ 1) : clampQ v 0 1 = v := by
  unfold clampQ
  rw [min_eq_left h1, max_eq_right h0]

theorem ratFloor_eq (q : ℚ) : (Rat.floor q : ℤ) = ⌊q⌋ := by
  rw [Rat.floor_def' q, Rat.floor_def]

theorem rfmod_eq_sub (k : ℕ) {t b : ℚ} (hb : 0 < b) (h0 : (k : ℚ) * b ≤ t)
    (h1 : t < ((k : ℚ) + 1) * b) : rfmod t b = t - (k : ℚ) * b := by
  have ht : 0 ≤ t := le_trans (by positivity) h0
  unfold rfmod rtruncQ
  rw [if_neg (not_lt.mpr (by positivity)), ratFloor_eq]
  have hf : ⌊t / b⌋ = (k : ℤ) := by
    rw [Int.floor_eq_iff]
    constructor
    · rw [le_div_iff₀ hb]
      exact_mod_cast h0
    · rw [div_lt_iff₀ hb]
      push_cast
      linarith
  rw [hf]
  push_cast
  ring

theorem rfmod_of_lt {t b : ℚ} (hb : 0 < b) (h0 : 0 ≤ t) (h1 : t < b) : rfmod t b = t := by
  have := rfmod_eq_sub 0 hb (by simpa using h0) (by simpa using h1)
  simpa using this

theorem filterMap_length_of_forall_isSome {α β : Type} (f : α → Option β) :
    ∀ l : List α, (∀ x ∈ l, (f x).isSome = true) → (l.filterMap f).length = l.length := by
  intro l
  induction l with
  | nil => intro _; rfl
  | cons x xs ih =>
    intro h
    rcases Option.isSome_iff_exists.mp (h x (by simp)) with ⟨b, hb⟩
    simp only [List.filterMap_cons, hb, List.length_cons]
    rw [ih (fun y hy => h y (by simp [hy]))]

theorem snd_mem_of_mem_enumFrom {α : Type} :
    ∀ (l : List α) (n : ℕ) (p : ℕ × α), p ∈ l.enumFrom n → p.2 ∈ l := by
  intro l
  induction l with
  | nil => intro n p h; simp [List.enumFrom] at h
  | cons x xs ih =>
    intro n p h
    simp only [List.enumFrom, List.mem_cons] at h
    rcases h with h | h
    · simp [h]
    · exact List.mem_cons_of_mem _ (ih (n + 1) p h)

theorem snd_mem_of_mem_enum {α : Type} (l : List α) (p : ℕ × α) (h : p ∈ l.enum) : p.2 ∈ l :=
  snd_mem_of_mem_enumFrom l 0 p h

/-! ## Claim theorems -/

/-- C1: evaluation of the expression parser at the failing input
`"#89b4fa, #fab387"` (the inner content of `gradient(#89b4fa, #fab387)`,
whose token scan yields the two hex tokens and an empty remainder).  The
claim says parsing succeeds with the `"to right"` coordinates
`{start:[0,0.5], end:[1,0.5]}`; the code instead falls back to the direction
string `"to_right"` (underscore), which the direction resolver rejects, so
the call returns `InvalidGradientCoordinates` — a slip in the code, since
the fallback as written can never resolve. -/
theorem c1_missing_direction_default_errors :
    try_from_string_core ctxModel realFunsModel 1 none "#89b4fa, #fab387"
        ["#89b4fa", "#fab387"] =
      .err (WinColorError.InvalidGradientCoordinates "to_right") := by
  decide

/-- C2: with zero valid color tokens the expression parser does not return
the claimed `NoValidColors` error value: it reaches
`color_matches.last().unwrap()` on the empty match vector and panics (the
`WinColorError` enum does not even have a `NoValidColors` variant). -/
theorem c2_zero_color_tokens_panic (ctx : ParseCtx) (R : RealFuns) (fuel : ℕ)
    (isActive : Option Bool) (s : String) :
    try_from_string_core ctx R fuel isActive s [] = .panicked := by
  rfl

/-- C9: for every direction string that parses as an angle `θ` with
`|θ| % 360 ∈ {90, 270}`, the resolver takes the vertical-line degeneracy
branch: the slope saturates to `sign(θ) · f32::MAX`, which is nonzero (so the
two boundary divisions in `calculate_point` never divide by zero), and the
resolution returns a `GradientCoordinates` value rather than failing or
panicking.  Quantified over the transcendental helpers, so it holds for the
real `tan`. -/
theorem c9_vertical_angle_safe (R : RealFuns) (s : String) (θ : ℚ)
    (hp : parse_angle R s = some θ)
    (hm : rfmod |θ| 360 = 90 ∨ rfmod |θ| 360 = 270) :
    angleSlope R θ = rsignum θ * maxFloat ∧ angleSlope R θ ≠ 0 ∧
      parse_coordinates R s = .ok (angleToCoords R θ) := by
  refine ⟨?_, ?_, ?_⟩
  · unfold angleSlope
    rw [if_pos hm]
  · unfold angleSlope
    rw [if_pos hm]
    unfold rsignum maxFloat
    split <;> norm_num
  · unfold parse_coordinates
    rw [hp]

/-- C9 witness: the angle string `"90deg"` instantiates the theorem. -/
theorem c9_vertical_angle_witness :
    angleSlope realFunsModel 90 = rsignum 90 * maxFloat ∧
      angleSlope realFunsModel 90 ≠ 0 ∧
      parse_coordinates realFunsModel "90deg" = .ok (angleToCoords realFunsModel 90) :=
  c9_vertical_angle_safe realFunsModel "90deg" 90 (by decide)
    (Or.inl (by
      rw [show |(90 : ℚ)| = 90 from abs_of_nonneg (by norm_num)]
      exact rfmod_of_lt (by norm_num) (by norm_num) (by norm_num)))

/-- C10: `set_opacity` followed by `get_opacity` returns the written
opacity, preserves the Solid/Gradient variant and leaves every other field
(the solid color, the gradient stops and direction) unchanged. -/
theorem c10_opacity_roundtrip :
    (∀ (c : Color) (o : ℚ), get_opacity (set_opacity c o) = o) ∧
    (∀ (s : Solid) (o : ℚ), set_opacity (.Solid s) o = .Solid ⟨s.color, o⟩) ∧
    (∀ (g : Gradient) (o : ℚ),
      set_opacity (.Gradient g) o = .Gradient ⟨g.gradient_stops, g.direction, o⟩) := by
  refine ⟨fun c o => ?_, fun s o => rfl, fun g o => rfl⟩
  cases c <;> rfl

/-- C4 counterexample: the token `"notacolor"` matches none of the
recognised shapes, and the token parser indeed succeeds — but with the
zeroed `D2D1_COLOR_F::default()`, i.e. *transparent* black `(0,0,0,0)`, not
the claimed opaque black `(0,0,0,1)`. -/
theorem c4_fallback_alpha_counterexample :
    parse ctxModel none 1 "notacolor" = .ok ⟨0, 0, 0, 0⟩ ∧
      parse ctxModel none 1 "notacolor" ≠ .ok ⟨0, 0, 0, 1⟩ := by
  decide

/-- C4 amended: a token that is not `accent`, not a named-table key, not a
`#`-hex form, not an `rgb()`/`rgba()` call and not a `darken()`/`lighten()`
call parses successfully to the default color — transparent black
`(r=0, g=0, b=0, alpha=0)` — rather than an error. -/
theorem c4_fallback_default_amended (ctx : ParseCtx) (isActive : Option Bool) (fuel : ℕ)
    (s : String)
    (h1 : s ≠ "accent") (h2 : ctx.namedColors s = none)
    (h3 : strStartsWith s "#" = false)
    (h4 : strStartsWith s "rgb(" = false) (h5 : strStartsWith s "rgba(" = false)
    (h6 : strStartsWith s "darken(" = false) (h7 : strStartsWith s "lighten(" = false) :
    parse ctx isActive (fuel + 1) s = .ok ⟨0, 0, 0, 0⟩ := by
  unfold parse
  rw [if_neg h1, h2]
  simp [h3, h4, h5, h6, h7]

/-- C4 witness: the amended theorem applied to the token `"notacolor"`. -/
theorem c4_fallback_default_witness :
    parse ctxModel none 1 "notacolor" = .ok ⟨0, 0, 0, 0⟩ :=
  c4_fallback_default_amended ctxModel none 0 "notacolor" (by decide) (by decide)
    (by decide) (by decide) (by decide) (by decide) (by decide)

/-- C3 counterexample: a two-color mapping in which the first color
(`"#fffff"`, an invalid 5-digit hex) fails to parse produces — successfully —
a `Gradient` whose stop list has exactly one stop, violating the claimed
"at least 2 stops" invariant: failed tokens are silently dropped. -/
theorem c3_gradient_single_stop_counterexample :
    try_from_mapping ctxModel realFunsModel 1 none
        ⟨["#fffff", "#fff"], .Coordinates ⟨(0, 1 / 2), (1, 1 / 2)⟩⟩ =
      .ok (.Gradient ⟨[⟨1, ⟨1, 1, 1, 1⟩⟩], ⟨(0, 1 / 2), (1, 1 / 2)⟩, 0⟩) ∧
    ([(⟨1, ⟨1, 1, 1, 1⟩⟩ : D2D1_GRADIENT_STOP)] : List D2D1_GRADIENT_STOP).length < 2 := by
  constructor
  · simp +decide [try_from_mapping, to_d2d1_color, strStartsWith, strLen, sliceStr,
      fromStrRadix16U8, hexDigit?, ctxModel, namedColorsModel, Result.toOption,
      List.enum, List.enumFrom]
  · norm_num

/-- C3 amended: on success, a Gradient built from color tokens that all
parse successfully has at least 2 stops (one per color); an input with
exactly one color token, or a mapping with at most one color, produces the
Solid variant.  (Tokens that fail to parse are dropped, so without the
all-parse proviso a Gradient can have fewer than 2 stops.) -/
theorem c3_gradient_stop_invariant_amended :
    (∀ (ctx : ParseCtx) (R : RealFuns) (fuel : ℕ) (isActive : Option Bool)
        (mapping : GradientMapping) (g : Gradient),
        (∀ c ∈ mapping.colors, (to_d2d1_color ctx isActive fuel c).toOption.isSome = true) →
        try_from_mapping ctx R fuel isActive mapping = .ok (.Gradient g) →
        2 ≤ g.gradient_stops.length) ∧
    (∀ (ctx : ParseCtx) (R : RealFuns) (fuel : ℕ) (isActive : Option Bool)
        (s : String) (ms : List String) (g : Gradient),
        (∀ c ∈ ms, (to_d2d1_color ctx isActive fuel c).toOption.isSome = true) →
        try_from_string_core ctx R fuel isActive s ms = .ok (.Gradient g) →
        2 ≤ g.gradient_stops.length) ∧
    (∀ (ctx : ParseCtx) (R : RealFuns) (fuel : ℕ) (isActive : Option Bool)
        (s m : String) (c : Color),
        try_from_string_core ctx R fuel isActive s [m] = .ok c →
        ∃ sol : Solid, c = .Solid sol) ∧
    (∀ (ctx : ParseCtx) (R : RealFuns) (fuel : ℕ) (isActive : Option Bool)
        (mapping : GradientMapping) (c : Color),
        mapping.colors.length ≤ 1 →
        try_from_mapping ctx R fuel isActive mapping = .ok c →
        ∃ sol : Solid, c = .Solid sol) := by
  refine ⟨?_, ?_, ?_, ?_⟩
  · intro ctx R fuel isActive mapping g hall hres
    simp only [try_from_mapping] at hres
    split at hres
    · simp at hres
    · split at hres
      · simp at hres
      · simp at hres
    · rename_i n heq
      split at hres
      · simp at hres
      · rename_i dir hdir
        simp only [Result.ok.injEq, Color.Gradient.injEq] at hres
        rw [← hres]
        have hfm : (mapping.colors.enum.filterMap
            (fun ih => (to_d2d1_color ctx isActive fuel ih.2).toOption.map
              (fun c => (⟨(ih.1 : ℚ) * (1 / ((mapping.colors.length - 1 : ℕ) : ℚ)), c⟩ :
                D2D1_GRADIENT_STOP)))).length = mapping.colors.enum.length := by
          apply filterMap_length_of_forall_isSome
          intro ih hih
          rw [Option.isSome_map']
          exact hall ih.2 (snd_mem_of_mem_enum _ _ hih)
        simp only [Gradient.mk.injEq] at hres ⊢
        simp only [hfm, List.enum_length]
        omega
  · intro ctx R fuel isActive s ms g hall hres
    simp only [try_from_string_core] at hres
    split at hres
    · split at hres
      · simp at hres
      · simp at hres
    · rename_i hne1
      split at hres
      · simp at hres
      · rename_i lastMatch hlast
        split at hres
        · simp at hres
        · rename_i idx hidx
          split at hres
          · simp at hres
          · rename_i dir hdir
            simp only [RunResult.ok.injEq, Color.Gradient.injEq] at hres
            rw [← hres]
            have hfm : (ms.filterMap
                (fun c => (to_d2d1_color ctx isActive fuel c).toOption)).length = ms.length :=
              filterMap_length_of_forall_isSome _ ms (fun c hc => hall c hc)
            have hne0 : ms ≠ [] := by
              intro h0
              rw [h0] at hlast
              simp at hlast
            have hlen0 : ms.length ≠ 0 := fun h => hne0 (List.length_eq_zero.mp h)
            simp only [mkGradientStops, List.length_map, List.enum_length, hfm]
            omega
  · intro ctx R fuel isActive s m c hres
    simp only [try_from_string_core, List.length_singleton, if_true] at hres
    split at hres
    · simp at hres
    · rename_i c0 h0
      cases hres
      exact ⟨_, rfl⟩
  · intro ctx R fuel isActive mapping c hle hres
    simp only [try_from_mapping] at hres
    split at hres
    · cases hres
      exact ⟨_, rfl⟩
    · split at hres
      · simp at hres
      · cases hres
        exact ⟨_, rfl⟩
    · rename_i n heq
      omega

/-- C3 witness: the amended theorem applied to a two-color mapping whose
colors both parse. -/
theorem c3_gradient_stop_invariant_witness :
    2 ≤ (Gradient.mk [⟨0, ⟨1, 1, 1, 1⟩⟩, ⟨1, ⟨0, 0, 0, 1⟩⟩] ⟨(0, 0), (1, 1)⟩
      0).gradient_stops.length :=
  c3_gradient_stop_invariant_amended.1 ctxModel realFunsModel 1 none
    ⟨["#fff", "#000"], .Coordinates ⟨(0, 0), (1, 1)⟩⟩
    ⟨[⟨0, ⟨1, 1, 1, 1⟩⟩, ⟨1, ⟨0, 0, 0, 1⟩⟩], ⟨(0, 0), (1, 1)⟩, 0⟩
    (by intro c hc; fin_cases hc <;> decide)
    (by simp +decide [try_from_mapping, to_d2d1_color, strStartsWith, strLen, sliceStr,
      fromStrRadix16U8, hexDigit?, ctxModel, namedColorsModel, Result.toOption,
      List.enum, List.enumFrom])

/-- C5: `rgb()`/`rgba()` component semantics of the token parser: a
component `N%` yields `N/100` (percent representation), a bare number `N`
yields `N/255` (byte representation); with 3 or 4 comma-separated components
whose first three all parse, the token parses to the clamped channels when
the three representations agree and is rejected as `InvalidRgb` when they
are mixed. -/
theorem c5_rgb_component_semantics :
    (∀ (s t : String) (v : ℚ), stripSuffixStr s "%" = some t → parseF32 t = some v →
      parse_percent_or_255 s = some (v / 100, true)) ∧
    (∀ (s : String) (v : ℚ), stripSuffixStr s "%" = none → parseF32 s = some v →
      parse_percent_or_255 s = some (v / 255, false)) ∧
    (∀ (ctx : ParseCtx) (isActive : Option Bool) (fuel : ℕ) (s : String)
        (params : List String) (rv : ℚ) (rFmt : Bool) (gv : ℚ) (gFmt : Bool) (bv : ℚ)
        (bFmt : Bool) (av : ℚ) (aFmt : Bool),
        s ≠ "accent" → ctx.namedColors s = none →
        strStartsWith s "#" = false →
        (strStartsWith s "rgb(" = true ∨ strStartsWith s "rgba(" = true) →
        params = (splitStr (stripString s ["rgb(", "rgba("] ')') ',').map trimStr →
        (params.length = 3 ∨ params.length = 4) →
        parse_percent_or_255 (params.getD 0 "") = some (rv, rFmt) →
        parse_percent_or_255 (params.getD 1 "") = some (gv, gFmt) →
        parse_percent_or_255 (params.getD 2 "") = some (bv, bFmt) →
        (if params.length = 4 then parse_percent_or_float (params.getD 3 "")
         else some ((1 : ℚ), true)) = some (av, aFmt) →
        parse ctx isActive (fuel + 1) s =
          (if rFmt = gFmt ∧ gFmt = bFmt then
            .ok ⟨clampQ rv 0 1, clampQ gv 0 1, clampQ bv 0 1, clampQ av 0 1⟩
          else .err ⟨.InvalidRgb, s⟩)) := by
  refine ⟨?_, ?_, ?_⟩
  · intro s t v hst hpf
    simp [parse_percent_or_255, hst, hpf]
  · intro s v hst hpf
    simp [parse_percent_or_255, hst, hpf]
  · intro ctx isActive fuel s params rv rFmt gv gFmt bv bFmt av aFmt
      h1 h2 h3 h4 hp hlen hr hg hb ha
    simp only [parse]
    rw [if_neg h1, h2]
    rw [if_neg (by simp [h3])]
    rw [if_pos h4]
    rw [← hp]
    rw [if_neg (by rcases hlen with h | h <;> simp [h])]
    rw [hr, hg, hb, ha]

/-- C5 witness: `"rgba(0%, 50%, 100%, 50%)"` (all-percent, hence accepted
and clamped) instantiates the token-level conjunct of the theorem. -/
theorem c5_rgb_component_witness :
    parse ctxModel none 1 "rgba(0%, 50%, 100%, 50%)" =
      (if (true = true ∧ true = true) then
        Result.ok (⟨clampQ 0 0 1, clampQ (1 / 2) 0 1, clampQ 1 0 1, clampQ (1 / 2) 0 1⟩ :
          D2D1_COLOR_F)
      else Result.err ⟨.InvalidRgb, "rgba(0%, 50%, 100%, 50%)"⟩) :=
  c5_rgb_component_semantics.2.2 ctxModel none 0 "rgba(0%, 50%, 100%, 50%)"
    ["0%", "50%", "100%", "50%"] 0 true (1 / 2) true 1 true (1 / 2) true
    (by decide) (by decide) (by decide) (by decide) (by decide) (by decide)
    (by simp +decide [parse_percent_or_255, stripSuffixStr, parseF32, parseExpPart,
      natOfDigits, strLen])
    (by simp +decide [parse_percent_or_255, stripSuffixStr, parseF32, parseExpPart,
      natOfDigits, strLen]
        norm_num)
    (by simp +decide [parse_percent_or_255, stripSuffixStr, parseF32, parseExpPart,
      natOfDigits, strLen])
    (by simp +decide [parse_percent_or_float, stripSuffixStr, parseF32, parseExpPart,
      natOfDigits, strLen]
        norm_num)

/-- C6: for `N ≥ 2` successfully parsed gradient colors the stop list built
by `try_from_string`/`parse_color` (via `mkGradientStops`) has one stop per
color, the `i`-th (0-indexed) stop sits exactly at `i / (N-1)`, positions are
strictly increasing, the first stop is at `0` and the last at `1`. -/
theorem c6_uniform_stop_positions (colors : List D2D1_COLOR_F) (h2 : 2 ≤ colors.length) :
    (mkGradientStops colors).length = colors.length ∧
    (∀ (i : ℕ) (st : D2D1_GRADIENT_STOP), (mkGradientStops colors)[i]? = some st →
      st.position = (i : ℚ) / ((colors.length : ℚ) - 1)) ∧
    (∀ (i j : ℕ) (si sj : D2D1_GRADIENT_STOP), (mkGradientStops colors)[i]? = some si →
      (mkGradientStops colors)[j]? = some sj → i < j → si.position < sj.position) ∧
    (∀ st : D2D1_GRADIENT_STOP, (mkGradientStops colors)[0]? = some st → st.position = 0) ∧
    (∀ st : D2D1_GRADIENT_STOP,
      (mkGradientStops colors)[colors.length - 1]? = some st → st.position = 1) := by
  have hcast : ((colors.length - 1 : ℕ) : ℚ) = (colors.length : ℚ) - 1 := by
    have : 1 ≤ colors.length := le_trans (by norm_num) h2
    push_cast [this]
    ring
  have hpos : (0 : ℚ) < (colors.length : ℚ) - 1 := by
    have : (2 : ℚ) ≤ (colors.length : ℚ) := by exact_mod_cast h2
    linarith
  have hlen : (mkGradientStops colors).length = colors.length := by
    unfold mkGradientStops
    simp
  have key : ∀ (i : ℕ) (st : D2D1_GRADIENT_STOP), (mkGradientStops colors)[i]? = some st →
      st.position = (i : ℚ) / ((colors.length : ℚ) - 1) := by
    intro i st h
    unfold mkGradientStops at h
    simp only [List.getElem?_map, List.getElem?_enum] at h
    rcases Option.map_eq_some'.mp h with ⟨p, hp1, hp2⟩
    rcases Option.map_eq_some'.mp hp1 with ⟨c, _, hc2⟩
    rw [← hp2, ← hc2]
    simp only [hcast]
    rw [one_div, mul_comm, inv_mul_eq_div]
  refine ⟨hlen, key, ?_, ?_, ?_⟩
  · intro i j si sj hi hj hij
    rw [key i si hi, key j sj hj]
    apply div_lt_div_of_pos_right _ hpos
    exact_mod_cast hij
  · intro st h
    rw [key 0 st h]
    simp
  · intro st h
    rw [key (colors.length - 1) st h, hcast]
    exact div_self (ne_of_gt hpos)

/-- C6 witness: two colors give stops at positions `0/(2-1)` and `1/(2-1)`. -/
theorem c6_uniform_stop_witness :
    (⟨1, ⟨1, 1, 1, 1⟩⟩ : D2D1_GRADIENT_STOP).position =
      (1 : ℚ) / ((([⟨0, 0, 0, 1⟩, ⟨1, 1, 1, 1⟩] : List D2D1_COLOR_F).length : ℚ) - 1) :=
  (c6_uniform_stop_positions [⟨0, 0, 0, 1⟩, ⟨1, 1, 1, 1⟩] (by norm_num)).2.1 1
    ⟨1, ⟨1, 1, 1, 1⟩⟩ (by norm_num [mkGradientStops, List.enum, List.enumFrom])

theorem hexDigit?_le15 {c : Char} {d : ℕ} (h : hexDigit? c = some d) : d ≤ 15 := by
  unfold hexDigit? at h
  split_ifs at h <;> (injection h with h2; omega)

theorem fromStrRadix16U8_single (c : Char) : fromStrRadix16U8 ⟨[c]⟩ = hexDigit? c := by
  by_cases hc : c = '+'
  · subst hc
    decide
  · rcases hd : hexDigit? c with _ | d
    · simp [fromStrRadix16U8, hc, hd]
    · have h15 := hexDigit?_le15 hd
      simp [fromStrRadix16U8, hc, hd]
      omega

theorem fromStrRadix16U8_pair {c : Char} {v : ℕ} (h : hexDigit? c = some v) :
    fromStrRadix16U8 ⟨[c, c]⟩ = some (v * 16 + v) := by
  have hc : ¬c = '+' := by
    intro hc
    rw [hc] at h
    rw [show hexDigit? '+' = none from by decide] at h
    exact Option.noConfusion h
  have hv := hexDigit?_le15 h
  simp [fromStrRadix16U8, hc, h]
  rw [if_pos (show v ≤ 255 by omega)]
  show (if v * 16 + v ≤ 255 then some (v * 16 + v) else none) = some (v * 16 + v)
  rw [if_pos (by omega)]

theorem nibble_dup_val (v : ℕ) (hv : v ≤ 15) : ((v <<< 4) ||| v) = v * 16 + v := by
  interval_cases v <;> rfl

theorem single_digit_byte {c : Char} {v : ℚ} (h : parse_single_digit ⟨[c]⟩ = .ok v)
    (w : String) : parseHexByte w ⟨[c, c]⟩ = .ok v := by
  unfold parse_single_digit at h
  rw [fromStrRadix16U8_single] at h
  rcases hd : hexDigit? c with _ | d
  · rw [hd] at h
    exact Result.noConfusion h
  · rw [hd] at h
    unfold parseHexByte
    rw [fromStrRadix16U8_pair hd]
    simp only [Result.ok.injEq] at h ⊢
    rw [← h, nibble_dup_val d (hexDigit?_le15 hd)]

theorem parse_hex_dup_three (c1 c2 c3 : Char) (c : D2D1_COLOR_F)
    (hok : parse_hex ⟨[c1, c2, c3]⟩ = .ok c) :
    parse_hex (dupNibbles ⟨[c1, c2, c3]⟩) = .ok c := by
  have hdup : dupNibbles ⟨[c1, c2, c3]⟩ = ⟨[c1, c1, c2, c2, c3, c3]⟩ := by
    simp [dupNibbles]
  rw [hdup]
  unfold parse_hex at hok ⊢
  simp only [strLen, sliceStr, List.length_cons, List.length_nil] at hok ⊢
  norm_num at hok ⊢
  split_ifs at hok with hascii
  · rw [if_neg hascii]
    split at hok
    · exact Result.noConfusion hok
    · rename_i r hr
      split at hok
      · exact Result.noConfusion hok
      · rename_i g hg
        split at hok
        · exact Result.noConfusion hok
        · rename_i b hb
          rw [single_digit_byte hr, single_digit_byte hg, single_digit_byte hb]
          exact hok

theorem parse_hex_dup_four (c1 c2 c3 c4 : Char) (c : D2D1_COLOR_F)
    (hok : parse_hex ⟨[c1, c2, c3, c4]⟩ = .ok c) :
    parse_hex (dupNibbles ⟨[c1, c2, c3, c4]⟩) = .ok c := by
  have hdup : dupNibbles ⟨[c1, c2, c3, c4]⟩ = ⟨[c1, c1, c2, c2, c3, c3, c4, c4]⟩ := by
    simp [dupNibbles]
  rw [hdup]
  unfold parse_hex at hok ⊢
  simp only [strLen, sliceStr, List.length_cons, List.length_nil] at hok ⊢
  norm_num at hok ⊢
  split_ifs at hok with hascii
  · rw [if_neg hascii]
    split at hok
    · exact Result.noConfusion hok
    · rename_i r hr
      split at hok
      · exact Result.noConfusion hok
      · rename_i g hg
        split at hok
        · exact Result.noConfusion hok
        · rename_i b hb
          split at hok
          · exact Result.noConfusion hok
          · rename_i a ha
            rw [single_digit_byte hr, single_digit_byte hg, single_digit_byte hb,
              single_digit_byte ha]
            exact hok

theorem parse_hex_alpha_three (c1 c2 c3 : Char) (c : D2D1_COLOR_F)
    (hok : parse_hex ⟨[c1, c2, c3]⟩ = .ok c) : c.a = 1 := by
  unfold parse_hex at hok
  simp only [strLen, sliceStr, List.length_cons, List.length_nil] at hok
  norm_num at hok
  split_ifs at hok with hascii
  · split at hok
    · exact Result.noConfusion hok
    · split at hok
      · exact Result.noConfusion hok
      · split at hok
        · exact Result.noConfusion hok
        · cases hok
          rfl

theorem parse_hex_alpha_six (c1 c2 c3 c4 c5 c6 : Char) (c : D2D1_COLOR_F)
    (hok : parse_hex ⟨[c1, c2, c3, c4, c5, c6]⟩ = .ok c) : c.a = 1 := by
  unfold parse_hex at hok
  simp only [strLen, sliceStr, List.length_cons, List.length_nil] at hok
  norm_num at hok
  split_ifs at hok with hascii
  · split at hok
    · exact Result.noConfusion hok
    · split at hok
      · exact Result.noConfusion hok
      · split at hok
        · exact Result.noConfusion hok
        · cases hok
          rfl

/-- C7: nibble-duplication law of the hex token parser: `parse("#fff")` and
`parse("#ffffff")` agree, `parse("#0000")` and `parse("#00000000")` agree;
in general every 3- or 4-digit hex string that parses successfully parses to
exactly the same RGBA as its nibble-duplicated form, and the alpha channel
defaults to fully opaque (1) for the alpha-less 3- and 6-digit forms. -/
theorem c7_hex_nibble_duplication :
    parse ctxModel none 1 "#fff" = parse ctxModel none 1 "#ffffff" ∧
    parse ctxModel none 1 "#0000" = parse ctxModel none 1 "#00000000" ∧
    parse ctxModel none 1 "#fff" = .ok ⟨1, 1, 1, 1⟩ ∧
    (∀ (s : String) (c : D2D1_COLOR_F), strLen s = 3 ∨ strLen s = 4 →
      parse_hex s = .ok c → parse_hex (dupNibbles s) = .ok c) ∧
    (∀ (s : String) (c : D2D1_COLOR_F), strLen s = 3 ∨ strLen s = 6 →
      parse_hex s = .ok c → c.a = 1) := by
  refine ⟨?_, ?_, ?_, ?_, ?_⟩
  · simp +decide [parse, parse_hex, parse_single_digit, parseHexByte, sliceStr,
      fromStrRadix16U8, hexDigit?, ctxModel, namedColorsModel, strStartsWith, strLen]
  · simp +decide [parse, parse_hex, parse_single_digit, parseHexByte, sliceStr,
      fromStrRadix16U8, hexDigit?, ctxModel, namedColorsModel, strStartsWith, strLen]
  · simp +decide [parse, parse_hex, parse_single_digit, parseHexByte, sliceStr,
      fromStrRadix16U8, hexDigit?, ctxModel, namedColorsModel, strStartsWith, strLen]
  · intro s c hlen hok
    rcases s with ⟨data⟩
    rcases data with _ | ⟨a1, _ | ⟨a2, _ | ⟨a3, _ | ⟨a4, _ | ⟨a5, rest⟩⟩⟩⟩⟩
    · simp only [strLen, List.length_nil] at hlen
      omega
    · simp only [strLen, List.length_cons, List.length_nil] at hlen
      omega
    · simp only [strLen, List.length_cons, List.length_nil] at hlen
      omega
    · exact parse_hex_dup_three a1 a2 a3 c hok
    · exact parse_hex_dup_four a1 a2 a3 a4 c hok
    · simp only [strLen, List.length_cons] at hlen
      omega
  · intro s c hlen hok
    rcases s with ⟨data⟩
    rcases data with _ | ⟨a1, _ | ⟨a2, _ | ⟨a3, _ | ⟨a4, _ | ⟨a5, _ | ⟨a6, _ | ⟨a7, rest⟩⟩⟩⟩⟩⟩⟩
    · simp only [strLen, List.length_nil] at hlen
      omega
    · simp only [strLen, List.length_cons, List.length_nil] at hlen
      omega
    · simp only [strLen, List.length_cons, List.length_nil] at hlen
      omega
    · exact parse_hex_alpha_three a1 a2 a3 c hok
    · simp only [strLen, List.length_cons, List.length_nil] at hlen
      omega
    · simp only [strLen, List.length_cons, List.length_nil] at hlen
      omega
    · exact parse_hex_alpha_six a1 a2 a3 a4 a5 a6 c hok
    · simp only [strLen, List.length_cons] at hlen
      omega

/-- C7 witness: the general nibble-duplication conjunct applied to `"abc"`
(whose duplicated form is `"aabbcc"`). -/
theorem c7_hex_nibble_witness :
    parse_hex (dupNibbles "abc") =
      .ok ⟨(170 : ℚ) / 255, (187 : ℚ) / 255, (204 : ℚ) / 255, 1⟩ :=
  c7_hex_nibble_duplication.2.2.2.1 "abc" ⟨(170 : ℚ) / 255, (187 : ℚ) / 255, (204 : ℚ) / 255, 1⟩
    (Or.inl (by decide))
    (by simp +decide [parse_hex, parse_single_digit, sliceStr, fromStrRadix16U8, hexDigit?,
      strLen])

theorem rt_const (r g b a : ℚ) (hr0 : 0 ≤ r) (hr1 : r ≤ 1) (hg0 : 0 ≤ g) (hg1 : g ≤ 1)
    (hb0 : 0 ≤ b) (hb1 : b ≤ 1)
    (hd : max (max r g) b - min (min r g) b = 0) :
    hsla_to_d2d1 (d2d1_to_hsla ⟨r, g, b, a⟩) = ⟨r, g, b, a⟩ := by
  have hmx1 : r ≤ max (max r g) b := le_max_of_le_left (le_max_left r g)
  have hmn1 : min (min r g) b ≤ r := le_trans (min_le_left _ _) (min_le_left r g)
  have hmx2 : g ≤ max (max r g) b := le_max_of_le_left (le_max_right r g)
  have hmn2 : min (min r g) b ≤ g := le_trans (min_le_left _ _) (min_le_right r g)
  have hmx3 : b ≤ max (max r g) b := le_max_right _ b
  have hmn3 : min (min r g) b ≤ b := min_le_right _ b
  have heq1 : r = min (min r g) b := by linarith
  have heq2 : g = min (min r g) b := by linarith
  have heq3 : b = min (min r g) b := by linarith
  simp only [d2d1_to_hsla]
  rw [if_neg (by simpa using hd)]
  simp only [hsla_to_d2d1]
  norm_num
  refine ⟨?_, ?_, ?_⟩ <;>
    (rw [clampQ_of_mem (by linarith) (by linarith)]; linarith)

theorem rt_case1a (r g b a : ℚ) (hr0 : 0 ≤ r) (hr1 : r ≤ 1) (hg0 : 0 ≤ g) (hg1 : g ≤ 1)
    (hb0 : 0 ≤ b) (hb1 : b ≤ 1)
    (hd : ¬(max (max r g) b - min (min r g) b = 0))
    (hc1 : max (max r g) b = r) (hgb : b ≤ g) :
    hsla_to_d2d1 (d2d1_to_hsla ⟨r, g, b, a⟩) = ⟨r, g, b, a⟩ := by
  have hgr : g ≤ r := le_trans (le_trans (le_max_right r g) (le_max_left _ b)) (le_of_eq hc1)
  have hbr : b ≤ r := le_trans (le_max_right _ b) (le_of_eq hc1)
  have hmn : min (min r g) b = b := by
    rw [min_eq_right hgr]
    exact min_eq_right hgb
  have hne : r - b ≠ 0 := by
    rw [hc1, hmn] at hd
    exact hd
  have hdpos : 0 < r - b :=
    lt_of_le_of_ne (by linarith) (fun h => hne h.symm)
  have hhsla : d2d1_to_hsla ⟨r, g, b, a⟩ =
      ⟨(g - b) / (r - b) * 60, ((r - b) / (1 - |2 * ((r + b) / 2) - 1|)) * 100,
        (r + b) / 2 * 100, a⟩ := by
    simp only [d2d1_to_hsla]
    rw [hc1, hmn]
    rw [if_pos hne, if_pos rfl]
    rw [if_neg (show ¬(g - b) / (r - b) * 60 < 0 by
      push_neg
      exact mul_nonneg (div_nonneg (by linarith) (by linarith)) (by norm_num))]
    rw [if_neg (show ¬((r + b) / 2 = 0 ∨ (r + b) / 2 = 1) by
      rintro (h | h) <;> nlinarith)]
  rw [hhsla]
  simp only [hsla_to_d2d1]
  have h100 : ∀ x : ℚ, x * 100 / 100 = x := fun x => mul_div_cancel_right₀ x (by norm_num)
  have h60 : ∀ x : ℚ, x * 60 / 60 = x := fun x => mul_div_cancel_right₀ x (by norm_num)
  simp only [h100, h60]
  have hDpos : 0 < 1 - |2 * ((r + b) / 2) - 1| := by
    have : |2 * ((r + b) / 2) - 1| < 1 := by
      rw [abs_lt]
      constructor <;> nlinarith
    linarith
  have hc : (1 - |2 * ((r + b) / 2) - 1|) * ((r - b) / (1 - |2 * ((r + b) / 2) - 1|)) =
      r - b := by
    rw [mul_comm]
    exact div_mul_cancel₀ _ (ne_of_gt hDpos)
  simp only [hc]
  have ht0 : 0 ≤ (g - b) / (r - b) := div_nonneg (by linarith) (by linarith)
  have ht1 : (g - b) / (r - b) ≤ 1 := by
    rw [div_le_one hdpos]
    linarith
  by_cases hsec : (g - b) / (r - b) * 60 < 60
  · rw [if_pos hsec]
    have hone : 1 - |rfmod ((g - b) / (r - b)) 2 - 1| = (g - b) / (r - b) := by
      rw [rfmod_of_lt (by norm_num) ht0 (by linarith)]
      rw [abs_of_nonpos (by linarith)]
      ring
    simp only [hone]
    have hx : (r - b) * ((g - b) / (r - b)) = g - b := by
      field_simp
    simp only [hx]
    simp only [D2D1_COLOR_F.mk.injEq]
    refine ⟨?_, ?_, ?_, trivial⟩
    · rw [clampQ_of_mem (by linarith) (by linarith)]
      ring
    · rw [clampQ_of_mem (by linarith) (by linarith)]
      ring
    · rw [clampQ_of_mem (by linarith) (by linarith)]
      ring
  · have hgr2 : g = r := by
      have : (1 : ℚ) ≤ (g - b) / (r - b) := by
        by_contra hlt
        push_neg at hlt
        exact hsec (by nlinarith)
      have := le_antisymm ht1 this
      field_simp at this
      linarith
    subst hgr2
    have htt : (g - b) / (g - b) = 1 := div_self hne
    simp only [htt]
    rw [if_neg (by norm_num), if_pos (by norm_num : (1 : ℚ) * 60 < 120)]
    have hone : 1 - |rfmod 1 2 - 1| = 1 := by
      rw [rfmod_of_lt (by norm_num) (by norm_num) (by norm_num)]
      norm_num
    simp only [hone]
    simp only [D2D1_COLOR_F.mk.injEq]
    refine ⟨?_, ?_, ?_, trivial⟩
    · rw [clampQ_of_mem (by linarith) (by linarith)]
      ring
    · rw [clampQ_of_mem (by linarith) (by linarith)]
      ring
    · rw [clampQ_of_mem (by linarith) (by linarith)]
      ring


theorem rt_case1b (r g b a : ℚ) (hr0 : 0 ≤ r) (hr1 : r ≤ 1) (hg0 : 0 ≤ g) (hg1 : g ≤ 1)
    (hb0 : 0 ≤ b) (hb1 : b ≤ 1)
    (hd : ¬(max (max r g) b - min (min r g) b = 0))
    (hc1 : max (max r g) b = r) (hgb : g < b) :
    hsla_to_d2d1 (d2d1_to_hsla ⟨r, g, b, a⟩) = ⟨r, g, b, a⟩ := by
  have hgr : g ≤ r := le_trans (le_trans (le_max_right r g) (le_max_left _ b)) (le_of_eq hc1)
  have hbr : b ≤ r := le_trans (le_max_right _ b) (le_of_eq hc1)
  have hmn : min (min r g) b = g := by
    rw [min_eq_right hgr]
    exact min_eq_left (le_of_lt hgb)
  have hne : r - g ≠ 0 := by
    rw [hc1, hmn] at hd
    exact hd
  have hdpos : 0 < r - g :=
    lt_of_le_of_ne (by linarith) (fun h => hne h.symm)
  have ht0 : (g - b) / (r - g) < 0 :=
    div_neg_of_neg_of_pos (by linarith) hdpos
  have ht1 : -1 ≤ (g - b) / (r - g) := by
    rw [le_div_iff₀ hdpos]
    linarith
  have hhsla : d2d1_to_hsla ⟨r, g, b, a⟩ =
      ⟨(g - b) / (r - g) * 60 + 360, ((r - g) / (1 - |2 * ((r + g) / 2) - 1|)) * 100,
        (r + g) / 2 * 100, a⟩ := by
    simp only [d2d1_to_hsla]
    rw [hc1, hmn]
    rw [if_pos hne, if_pos rfl]
    rw [if_pos (show (g - b) / (r - g) * 60 < 0 by nlinarith)]
    rw [if_neg (show ¬((r + g) / 2 = 0 ∨ (r + g) / 2 = 1) by
      rintro (h | h) <;> nlinarith)]
  rw [hhsla]
  simp only [hsla_to_d2d1]
  have h100 : ∀ x : ℚ, x * 100 / 100 = x := fun x => mul_div_cancel_right₀ x (by norm_num)
  simp only [h100]
  have hDpos : 0 < 1 - |2 * ((r + g) / 2) - 1| := by
    have : |2 * ((r + g) / 2) - 1| < 1 := by
      rw [abs_lt]
      constructor <;> nlinarith
    linarith
  have hc : (1 - |2 * ((r + g) / 2) - 1|) * ((r - g) / (1 - |2 * ((r + g) / 2) - 1|)) =
      r - g := by
    rw [mul_comm]
    exact div_mul_cancel₀ _ (ne_of_gt hDpos)
  simp only [hc]
  rw [if_neg (by nlinarith), if_neg (by nlinarith), if_neg (by nlinarith),
    if_neg (by nlinarith), if_neg (by nlinarith)]
  have hdiv : ((g - b) / (r - g) * 60 + 360) / 60 = (g - b) / (r - g) + 6 := by
    field_simp
    ring
  have hone : 1 - |rfmod (((g - b) / (r - g) * 60 + 360) / 60) 2 - 1| =
      -((g - b) / (r - g)) := by
    rw [hdiv]
    rw [rfmod_eq_sub 2 (by norm_num) (by push_cast; linarith) (by push_cast; linarith)]
    rw [show (g - b) / (r - g) + 6 - (2 : ℕ) * 2 = (g - b) / (r - g) + 2 by push_cast; ring]
    rw [show (g - b) / (r - g) + 2 - 1 = (g - b) / (r - g) + 1 by ring]
    rw [abs_of_nonneg (by linarith)]
    ring
  simp only [hone]
  have hx : (r - g) * -((g - b) / (r - g)) = b - g := by
    field_simp
  simp only [hx]
  simp only [D2D1_COLOR_F.mk.injEq]
  refine ⟨?_, ?_, ?_, trivial⟩
  · rw [clampQ_of_mem (by linarith) (by linarith)]
    ring
  · rw [clampQ_of_mem (by linarith) (by linarith)]
    ring
  · rw [clampQ_of_mem (by linarith) (by linarith)]
    ring


theorem rt_case2a (r g b a : ℚ) (hr0 : 0 ≤ r) (hr1 : r ≤ 1) (hg0 : 0 ≤ g) (hg1 : g ≤ 1)
    (hb0 : 0 ≤ b) (hb1 : b ≤ 1)
    (hd : ¬(max (max r g) b - min (min r g) b = 0))
    (hc1 : ¬max (max r g) b = r) (hc2 : max (max r g) b = g) (hrb : r ≤ b) :
    hsla_to_d2d1 (d2d1_to_hsla ⟨r, g, b, a⟩) = ⟨r, g, b, a⟩ := by
  have hrg : r ≤ g := le_trans (le_trans (le_max_left r g) (le_max_left _ b)) (le_of_eq hc2)
  have hbg : b ≤ g := le_trans (le_max_right _ b) (le_of_eq hc2)
  have hrg2 : r < g := by
    rcases lt_or_eq_of_le hrg with h | h
    · exact h
    · exact absurd (by rw [hc2, ← h]) hc1
  have hgrne : ¬(g : ℚ) = r := fun h => absurd (by rw [hc2, h]) hc1
  have hmn : min (min r g) b = r := by
    rw [min_eq_left hrg]
    exact min_eq_left hrb
  have hne : g - r ≠ 0 := by
    rw [hc2, hmn] at hd
    exact hd
  have hdpos : 0 < g - r := by linarith
  have ht0 : 0 ≤ (b - r) / (g - r) := div_nonneg (by linarith) (by linarith)
  have ht1 : (b - r) / (g - r) ≤ 1 := by
    rw [div_le_one hdpos]
    linarith
  have hhsla : d2d1_to_hsla ⟨r, g, b, a⟩ =
      ⟨((b - r) / (g - r) + 2) * 60, ((g - r) / (1 - |2 * ((g + r) / 2) - 1|)) * 100,
        (g + r) / 2 * 100, a⟩ := by
    simp only [d2d1_to_hsla]
    rw [hc2, hmn]
    rw [if_pos hne, if_neg hgrne, if_pos rfl]
    rw [if_neg (show ¬((b - r) / (g - r) + 2) * 60 < 0 by nlinarith)]
    rw [if_neg (show ¬((g + r) / 2 = 0 ∨ (g + r) / 2 = 1) by
      rintro (h | h) <;> nlinarith)]
  rw [hhsla]
  simp only [hsla_to_d2d1]
  have h100 : ∀ x : ℚ, x * 100 / 100 = x := fun x => mul_div_cancel_right₀ x (by norm_num)
  simp only [h100]
  have hDpos : 0 < 1 - |2 * ((g + r) / 2) - 1| := by
    have : |2 * ((g + r) / 2) - 1| < 1 := by
      rw [abs_lt]
      constructor <;> nlinarith
    linarith
  have hc : (1 - |2 * ((g + r) / 2) - 1|) * ((g - r) / (1 - |2 * ((g + r) / 2) - 1|)) =
      g - r := by
    rw [mul_comm]
    exact div_mul_cancel₀ _ (ne_of_gt hDpos)
  simp only [hc]
  have hdiv : ((b - r) / (g - r) + 2) * 60 / 60 = (b - r) / (g - r) + 2 :=
    mul_div_cancel_right₀ _ (by norm_num)
  by_cases hsec : ((b - r) / (g - r) + 2) * 60 < 180
  · rw [if_neg (by nlinarith), if_neg (by nlinarith), if_pos hsec]
    have hone : 1 - |rfmod ((((b - r) / (g - r) + 2) * 60) / 60) 2 - 1| =
        (b - r) / (g - r) := by
      rw [hdiv]
      rw [rfmod_eq_sub 1 (by norm_num) (by push_cast; linarith) (by push_cast; linarith)]
      rw [show (b - r) / (g - r) + 2 - (1 : ℕ) * 2 = (b - r) / (g - r) by push_cast; ring]
      rw [abs_of_nonpos (by linarith)]
      ring
    simp only [hone]
    have hx : (g - r) * ((b - r) / (g - r)) = b - r := by
      field_simp
    simp only [hx]
    simp only [D2D1_COLOR_F.mk.injEq]
    refine ⟨?_, ?_, ?_, trivial⟩
    · rw [clampQ_of_mem (by linarith) (by linarith)]
      ring
    · rw [clampQ_of_mem (by linarith) (by linarith)]
      ring
    · rw [clampQ_of_mem (by linarith) (by linarith)]
      ring
  · have hbg2 : b = g := by
      have h1 : (1 : ℚ) ≤ (b - r) / (g - r) := by
        by_contra hlt
        push_neg at hlt
        exact hsec (by nlinarith)
      have h2 := le_antisymm ht1 h1
      field_simp at h2
      linarith
    subst hbg2
    have htt : (b - r) / (b - r) = 1 := div_self hne
    simp only [htt]
    rw [if_neg (by norm_num), if_neg (by norm_num), if_neg (by norm_num),
      if_pos (by norm_num : ((1 : ℚ) + 2) * 60 < 240)]
    have hone : 1 - |rfmod (((1 : ℚ) + 2) * 60 / 60) 2 - 1| = 1 := by
      rw [show ((1 : ℚ) + 2) * 60 / 60 = 3 by norm_num]
      rw [rfmod_eq_sub 1 (by norm_num) (by push_cast; norm_num) (by push_cast; norm_num)]
      norm_num
    simp only [hone]
    simp only [D2D1_COLOR_F.mk.injEq]
    refine ⟨?_, ?_, ?_, trivial⟩
    · rw [clampQ_of_mem (by linarith) (by linarith)]
      ring
    · rw [clampQ_of_mem (by linarith) (by linarith)]
      ring
    · rw [clampQ_of_mem (by linarith) (by linarith)]
      ring


theorem rt_case2b (r g b a : ℚ) (hr0 : 0 ≤ r) (hr1 : r ≤ 1) (hg0 : 0 ≤ g) (hg1 : g ≤ 1)
    (hb0 : 0 ≤ b) (hb1 : b ≤ 1)
    (hd : ¬(max (max r g) b - min (min r g) b = 0))
    (hc1 : ¬max (max r g) b = r) (hc2 : max (max r g) b = g) (hbr : b < r) :
    hsla_to_d2d1 (d2d1_to_hsla ⟨r, g, b, a⟩) = ⟨r, g, b, a⟩ := by
  have hrg : r ≤ g := le_trans (le_trans (le_max_left r g) (le_max_left _ b)) (le_of_eq hc2)
  have hrg2 : r < g := by
    rcases lt_or_eq_of_le hrg with h | h
    · exact h
    · exact absurd (by rw [hc2, ← h]) hc1
  have hgrne : ¬(g : ℚ) = r := fun h => absurd (by rw [hc2, h]) hc1
  have hmn : min (min r g) b = b := by
    rw [min_eq_left hrg]
    exact min_eq_right (le_of_lt hbr)
  have hne : g - b ≠ 0 := by
    rw [hc2, hmn] at hd
    exact hd
  have hdpos : 0 < g - b := by linarith
  have ht0 : (b - r) / (g - b) < 0 :=
    div_neg_of_neg_of_pos (by linarith) hdpos
  have ht1 : -1 < (b - r) / (g - b) := by
    rw [lt_div_iff₀ hdpos]
    linarith
  have hhsla : d2d1_to_hsla ⟨r, g, b, a⟩ =
      ⟨((b - r) / (g - b) + 2) * 60, ((g - b) / (1 - |2 * ((g + b) / 2) - 1|)) * 100,
        (g + b) / 2 * 100, a⟩ := by
    simp only [d2d1_to_hsla]
    rw [hc2, hmn]
    rw [if_pos hne, if_neg hgrne, if_pos rfl]
    rw [if_neg (show ¬((b - r) / (g - b) + 2) * 60 < 0 by nlinarith)]
    rw [if_neg (show ¬((g + b) / 2 = 0 ∨ (g + b) / 2 = 1) by
      rintro (h | h) <;> nlinarith)]
  rw [hhsla]
  simp only [hsla_to_d2d1]
  have h100 : ∀ x : ℚ, x * 100 / 100 = x := fun x => mul_div_cancel_right₀ x (by norm_num)
  simp only [h100]
  have hDpos : 0 < 1 - |2 * ((g + b) / 2) - 1| := by
    have : |2 * ((g + b) / 2) - 1| < 1 := by
      rw [abs_lt]
      constructor <;> nlinarith
    linarith
  have hc : (1 - |2 * ((g + b) / 2) - 1|) * ((g - b) / (1 - |2 * ((g + b) / 2) - 1|)) =
      g - b := by
    rw [mul_comm]
    exact div_mul_cancel₀ _ (ne_of_gt hDpos)
  simp only [hc]
  rw [if_neg (by nlinarith), if_pos (by nlinarith)]
  have hdiv : ((b - r) / (g - b) + 2) * 60 / 60 = (b - r) / (g - b) + 2 :=
    mul_div_cancel_right₀ _ (by norm_num)
  have hone : 1 - |rfmod ((((b - r) / (g - b) + 2) * 60) / 60) 2 - 1| =
      -((b - r) / (g - b)) := by
    rw [hdiv]
    rw [rfmod_of_lt (by norm_num) (by linarith) (by linarith)]
    rw [show (b - r) / (g - b) + 2 - 1 = (b - r) / (g - b) + 1 by ring]
    rw [abs_of_nonneg (by linarith)]
    ring
  simp only [hone]
  have hx : (g - b) * -((b - r) / (g - b)) = r - b := by
    field_simp
  simp only [hx]
  simp only [D2D1_COLOR_F.mk.injEq]
  refine ⟨?_, ?_, ?_, trivial⟩
  · rw [clampQ_of_mem (by linarith) (by linarith)]
    ring
  · rw [clampQ_of_mem (by linarith) (by linarith)]
    ring
  · rw [clampQ_of_mem (by linarith) (by linarith)]
    ring

theorem rt_case3a (r g b a : ℚ) (hr0 : 0 ≤ r) (hr1 : r ≤ 1) (hg0 : 0 ≤ g) (hg1 : g ≤ 1)
    (hb0 : 0 ≤ b) (hb1 : b ≤ 1)
    (hd : ¬(max (max r g) b - min (min r g) b = 0))
    (hc1 : ¬max (max r g) b = r) (hc2 : ¬max (max r g) b = g) (hgr : g ≤ r) :
    hsla_to_d2d1 (d2d1_to_hsla ⟨r, g, b, a⟩) = ⟨r, g, b, a⟩ := by
  have hc3 : max (max r g) b = b := by
    rcases max_choice (max r g) b with h | h
    · rcases max_choice r g with h2 | h2
      · exact absurd (h.trans h2) hc1
      · exact absurd (h.trans h2) hc2
    · exact h
  have hrb : r ≤ b := le_trans (le_trans (le_max_left r g) (le_max_left _ b)) (le_of_eq hc3)
  have hgb : g ≤ b := le_trans (le_trans (le_max_right r g) (le_max_left _ b)) (le_of_eq hc3)
  have hrb2 : r < b := by
    rcases lt_or_eq_of_le hrb with h | h
    · exact h
    · exact absurd (by rw [hc3, ← h]) hc1
  have hbrne : ¬(b : ℚ) = r := fun h => absurd (by rw [hc3, h]) hc1
  have hbgne : ¬(b : ℚ) = g := fun h => absurd (by rw [hc3, h]) hc2
  have hmn : min (min r g) b = g := by
    rw [min_eq_right hgr]
    exact min_eq_left hgb
  have hne : b - g ≠ 0 := by
    rw [hc3, hmn] at hd
    exact hd
  have hdpos : 0 < b - g := by linarith
  have ht0 : 0 ≤ (r - g) / (b - g) := div_nonneg (by linarith) (by linarith)
  have ht1 : (r - g) / (b - g) < 1 := by
    rw [div_lt_one hdpos]
    linarith
  have hhsla : d2d1_to_hsla ⟨r, g, b, a⟩ =
      ⟨((r - g) / (b - g) + 4) * 60, ((b - g) / (1 - |2 * ((b + g) / 2) - 1|)) * 100,
        (b + g) / 2 * 100, a⟩ := by
    simp only [d2d1_to_hsla]
    rw [hc3, hmn]
    rw [if_pos hne, if_neg hbrne, if_neg hbgne]
    rw [if_neg (show ¬((r - g) / (b - g) + 4) * 60 < 0 by nlinarith)]
    rw [if_neg (show ¬((b + g) / 2 = 0 ∨ (b + g) / 2 = 1) by
      rintro (h | h) <;> nlinarith)]
  rw [hhsla]
  simp only [hsla_to_d2d1]
  have h100 : ∀ x : ℚ, x * 100 / 100 = x := fun x => mul_div_cancel_right₀ x (by norm_num)
  simp only [h100]
  have hDpos : 0 < 1 - |2 * ((b + g) / 2) - 1| := by
    have : |2 * ((b + g) / 2) - 1| < 1 := by
      rw [abs_lt]
      constructor <;> nlinarith
    linarith
  have hc : (1 - |2 * ((b + g) / 2) - 1|) * ((b - g) / (1 - |2 * ((b + g) / 2) - 1|)) =
      b - g := by
    rw [mul_comm]
    exact div_mul_cancel₀ _ (ne_of_gt hDpos)
  simp only [hc]
  rw [if_neg (by nlinarith), if_neg (by nlinarith), if_neg (by nlinarith),
    if_neg (by nlinarith), if_pos (by nlinarith)]
  have hdiv : ((r - g) / (b - g) + 4) * 60 / 60 = (r - g) / (b - g) + 4 :=
    mul_div_cancel_right₀ _ (by norm_num)
  have hone : 1 - |rfmod ((((r - g) / (b - g) + 4) * 60) / 60) 2 - 1| =
      (r - g) / (b - g) := by
    rw [hdiv]
    rw [rfmod_eq_sub 2 (by norm_num) (by push_cast; linarith) (by push_cast; linarith)]
    rw [show (r - g) / (b - g) + 4 - (2 : ℕ) * 2 = (r - g) / (b - g) by push_cast; ring]
    rw [abs_of_nonpos (by linarith)]
    ring
  simp only [hone]
  have hx : (b - g) * ((r - g) / (b - g)) = r - g := by
    field_simp
  simp only [hx]
  simp only [D2D1_COLOR_F.mk.injEq]
  refine ⟨?_, ?_, ?_, trivial⟩
  · rw [clampQ_of_mem (by linarith) (by linarith)]
    ring
  · rw [clampQ_of_mem (by linarith) (by linarith)]
    ring
  · rw [clampQ_of_mem (by linarith) (by linarith)]
    ring

theorem rt_case3b (r g b a : ℚ) (hr0 : 0 ≤ r) (hr1 : r ≤ 1) (hg0 : 0 ≤ g) (hg1 : g ≤ 1)
    (hb0 : 0 ≤ b) (hb1 : b ≤ 1)
    (hd : ¬(max (max r g) b - min (min r g) b = 0))
    (hc1 : ¬max (max r g) b = r) (hc2 : ¬max (max r g) b = g) (hrg : r < g) :
    hsla_to_d2d1 (d2d1_to_hsla ⟨r, g, b, a⟩) = ⟨r, g, b, a⟩ := by
  have hc3 : max (max r g) b = b := by
    rcases max_choice (max r g) b with h | h
    · rcases max_choice r g with h2 | h2
      · exact absurd (h.trans h2) hc1
      · exact absurd (h.trans h2) hc2
    · exact h
  have hgb : g ≤ b := le_trans (le_trans (le_max_right r g) (le_max_left _ b)) (le_of_eq hc3)
  have hgb2 : g < b := by
    rcases lt_or_eq_of_le hgb with h | h
    · exact h
    · exact absurd (by rw [hc3, ← h]) hc2
  have hbrne : ¬(b : ℚ) = r := fun h => absurd (by rw [hc3, h]) hc1
  have hbgne : ¬(b : ℚ) = g := fun h => absurd (by rw [hc3, h]) hc2
  have hmn : min (min r g) b = r := by
    rw [min_eq_left (le_of_lt hrg)]
    exact min_eq_left (by linarith)
  have hne : b - r ≠ 0 := by
    rw [hc3, hmn] at hd
    exact hd
  have hdpos : 0 < b - r := by linarith
  have ht0 : (r - g) / (b - r) < 0 :=
    div_neg_of_neg_of_pos (by linarith) hdpos
  have ht1 : -1 < (r - g) / (b - r) := by
    rw [lt_div_iff₀ hdpos]
    linarith
  have hhsla : d2d1_to_hsla ⟨r, g, b, a⟩ =
      ⟨((r - g) / (b - r) + 4) * 60, ((b - r) / (1 - |2 * ((b + r) / 2) - 1|)) * 100,
        (b + r) / 2 * 100, a⟩ := by
    simp only [d2d1_to_hsla]
    rw [hc3, hmn]
    rw [if_pos hne, if_neg hbrne, if_neg hbgne]
    rw [if_neg (show ¬((r - g) / (b - r) + 4) * 60 < 0 by nlinarith)]
    rw [if_neg (show ¬((b + r) / 2 = 0 ∨ (b + r) / 2 = 1) by
      rintro (h | h) <;> nlinarith)]
  rw [hhsla]
  simp only [hsla_to_d2d1]
  have h100 : ∀ x : ℚ, x * 100 / 100 = x := fun x => mul_div_cancel_right₀ x (by norm_num)
  simp only [h100]
  have hDpos : 0 < 1 - |2 * ((b + r) / 2) - 1| := by
    have : |2 * ((b + r) / 2) - 1| < 1 := by
      rw [abs_lt]
      constructor <;> nlinarith
    linarith
  have hc : (1 - |2 * ((b + r) / 2) - 1|) * ((b - r) / (1 - |2 * ((b + r) / 2) - 1|)) =
      b - r := by
    rw [mul_comm]
    exact div_mul_cancel₀ _ (ne_of_gt hDpos)
  simp only [hc]
  rw [if_neg (by nlinarith), if_neg (by nlinarith), if_neg (by nlinarith),
    if_pos (by nlinarith)]
  have hdiv : ((r - g) / (b - r) + 4) * 60 / 60 = (r - g) / (b - r) + 4 :=
    mul_div_cancel_right₀ _ (by norm_num)
  have hone : 1 - |rfmod ((((r - g) / (b - r) + 4) * 60) / 60) 2 - 1| =
      -((r - g) / (b - r)) := by
    rw [hdiv]
    rw [rfmod_eq_sub 1 (by norm_num) (by push_cast; linarith) (by push_cast; linarith)]
    rw [show (r - g) / (b - r) + 4 - (1 : ℕ) * 2 = (r - g) / (b - r) + 2 by push_cast; ring]
    rw [show (r - g) / (b - r) + 2 - 1 = (r - g) / (b - r) + 1 by ring]
    rw [abs_of_nonneg (by linarith)]
    ring
  simp only [hone]
  have hx : (b - r) * -((r - g) / (b - r)) = g - r := by
    field_simp
  simp only [hx]
  simp only [D2D1_COLOR_F.mk.injEq]
  refine ⟨?_, ?_, ?_, trivial⟩
  · rw [clampQ_of_mem (by linarith) (by linarith)]
    ring
  · rw [clampQ_of_mem (by linarith) (by linarith)]
    ring
  · rw [clampQ_of_mem (by linarith) (by linarith)]
    ring

theorem hsla_round_trip (c : D2D1_COLOR_F) (hr0 : 0 ≤ c.r) (hr1 : c.r ≤ 1)
    (hg0 : 0 ≤ c.g) (hg1 : c.g ≤ 1) (hb0 : 0 ≤ c.b) (hb1 : c.b ≤ 1) :
    hsla_to_d2d1 (d2d1_to_hsla c) = c := by
  obtain ⟨r, g, b, a⟩ := c
  simp only at hr0 hr1 hg0 hg1 hb0 hb1
  by_cases hd : max (max r g) b - min (min r g) b = 0
  · exact rt_const r g b a hr0 hr1 hg0 hg1 hb0 hb1 hd
  · by_cases hc1 : max (max r g) b = r
    · by_cases hgb : b ≤ g
      · exact rt_case1a r g b a hr0 hr1 hg0 hg1 hb0 hb1 hd hc1 hgb
      · exact rt_case1b r g b a hr0 hr1 hg0 hg1 hb0 hb1 hd hc1 (not_le.mp hgb)
    · by_cases hc2 : max (max r g) b = g
      · by_cases hrb : r ≤ b
        · exact rt_case2a r g b a hr0 hr1 hg0 hg1 hb0 hb1 hd hc1 hc2 hrb
        · exact rt_case2b r g b a hr0 hr1 hg0 hg1 hb0 hb1 hd hc1 hc2 (not_le.mp hrb)
      · by_cases hgr : g ≤ r
        · exact rt_case3a r g b a hr0 hr1 hg0 hg1 hb0 hb1 hd hc1 hc2 hgr
        · exact rt_case3b r g b a hr0 hr1 hg0 hg1 hb0 hb1 hd hc1 hc2 (not_le.mp hgr)

/-- C8: for every RGBA color (channels in `[0,1]` as the data model
specifies), `darken` and `lighten` with percentage 0 leave the lightness
unchanged, and the RGBA→HSL→RGBA round trip is exactly the identity in this
exact-arithmetic model of the float computation: `darken(c, 0) = c` and
`lighten(c, 0) = c`. -/
theorem c8_zero_shift_identity (c : D2D1_COLOR_F) (hr0 : 0 ≤ c.r) (hr1 : c.r ≤ 1)
    (hg0 : 0 ≤ c.g) (hg1 : c.g ≤ 1) (hb0 : 0 ≤ c.b) (hb1 : c.b ≤ 1) :
    darken c 0 = c ∧ lighten c 0 = c := by
  have hfix : ∀ x : Hsla, ({ x with l := x.l - x.l * 0 / 100 } : Hsla) = x := by
    intro x
    obtain ⟨H, S, L, A⟩ := x
    simp
  have hfix2 : ∀ x : Hsla, ({ x with l := x.l + x.l * 0 / 100 } : Hsla) = x := by
    intro x
    obtain ⟨H, S, L, A⟩ := x
    simp
  constructor
  · simp only [darken]
    rw [hfix]
    exact hsla_round_trip c hr0 hr1 hg0 hg1 hb0 hb1
  · simp only [lighten]
    rw [hfix2]
    exact hsla_round_trip c hr0 hr1 hg0 hg1 hb0 hb1

/-- C8 witness: the theorem applied to the color `(1/2, 1/4, 3/4, 1)`. -/
theorem c8_zero_shift_witness :
    darken ⟨1 / 2, 1 / 4, 3 / 4, 1⟩ 0 = (⟨1 / 2, 1 / 4, 3 / 4, 1⟩ : D2D1_COLOR_F) ∧
      lighten ⟨1 / 2, 1 / 4, 3 / 4, 1⟩ 0 = (⟨1 / 2, 1 / 4, 3 / 4, 1⟩ : D2D1_COLOR_F) :=
  c8_zero_shift_identity ⟨1 / 2, 1 / 4, 3 / 4, 1⟩ (by norm_num) (by norm_num) (by norm_num)
    (by norm_num) (by norm_num) (by norm_num)

end WinColor
